import Mathlib

/-!
Verification development for the pygrim symbolic-computation kernel
(files `pygrim/expr.py` and `pygrim/brain.py`).

The development shallowly embeds the term model (`Expr`), the inference
engine (ternary predicates), the simplification engine (`Brain.simple`
and its per-operator handlers), and the knowledge-base rewriter
(`FungrimBrain.simple`).  Python functions are translated line by line;
line numbers in doc comments refer to the source files.

Conventions of the embedding:

* Python's arbitrary-precision integers are `Int`/`Nat`; the exact
  rational arithmetic consumed from the flint library (`fmpz`/`fmpq`)
  is modelled by the `Coeff` type below, which tracks the dynamic type
  (`fmpz` vs `fmpq`) because the source branches on `isinstance`.
* Python `None`-or-boolean predicate results are the three-valued
  `Ternary` type.
* Raised exceptions are modelled by the `Err`/`Res`/`SRes` result
  types; mutable state (the memoization cache and the algebraic
  backend's global degree/bit budgets) is threaded explicitly.
* The mutual recursion of the simplifier is not structurally
  decreasing in the source, so every recursive function takes explicit
  fuel; exhausted fuel yields the distinguished result `spin`, which is
  different from any value or raised exception.  A theorem whose
  conclusion produces a non-`spin` result therefore certifies a real,
  finite trace of the embedded code.
* External collaborators that are not part of the two source files
  (the numeric oracle built on arb/acb, the exact algebraic backend in
  `pygrim/algebraic.py`, and the formula corpus) are modelled from the
  specification as parameters; each such definition carries a
  `Modelled from the spec:` doc comment.
-/

set_option maxRecDepth 10000

namespace Pygrim

/-- The term model of `expr.py` (`Expr.__new__`, lines 37-125): a term is an
atom (symbol, integer or text) or an application.  The Python object stores
one tuple `_args = (head, arg1, ..., argn)`; we store the head and the
argument list separately, which represents exactly the tuples accepted by
the constructor's `assert len(self._args) >= 1` (an application with an
empty argument list is representable, matching `Expr(call=(f,))`). -/
inductive Expr where
  | Symbol (name : String)
  | Integer (n : Int)
  | Text (s : String)
  | App (head : Expr) (args : List Expr)

mutual

/-- Structural equality of terms (`Expr.__eq__`, expr.py lines 127-148),
as a decision procedure. -/
def Expr.decEq : (a b : Expr) → Decidable (a = b)
  | .Symbol a, .Symbol b =>
      match String.decEq a b with
      | isTrue h => isTrue (by rw [h])
      | isFalse h => isFalse (by intro hh; cases hh; exact h rfl)
  | .Integer a, .Integer b =>
      match Int.decEq a b with
      | isTrue h => isTrue (by rw [h])
      | isFalse h => isFalse (by intro hh; cases hh; exact h rfl)
  | .Text a, .Text b =>
      match String.decEq a b with
      | isTrue h => isTrue (by rw [h])
      | isFalse h => isFalse (by intro hh; cases hh; exact h rfl)
  | .App h1 a1, .App h2 a2 =>
      match Expr.decEq h1 h2, Expr.decEqList a1 a2 with
      | isTrue h, isTrue h' => isTrue (by rw [h, h'])
      | isFalse h, _ => isFalse (by intro hh; cases hh; exact h rfl)
      | _, isFalse h' => isFalse (by intro hh; cases hh; exact h' rfl)
  | .Symbol _, .Integer _ => isFalse (by intro h; cases h)
  | .Symbol _, .Text _ => isFalse (by intro h; cases h)
  | .Symbol _, .App _ _ => isFalse (by intro h; cases h)
  | .Integer _, .Symbol _ => isFalse (by intro h; cases h)
  | .Integer _, .Text _ => isFalse (by intro h; cases h)
  | .Integer _, .App _ _ => isFalse (by intro h; cases h)
  | .Text _, .Symbol _ => isFalse (by intro h; cases h)
  | .Text _, .Integer _ => isFalse (by intro h; cases h)
  | .Text _, .App _ _ => isFalse (by intro h; cases h)
  | .App _ _, .Symbol _ => isFalse (by intro h; cases h)
  | .App _ _, .Integer _ => isFalse (by intro h; cases h)
  | .App _ _, .Text _ => isFalse (by intro h; cases h)

/-- Structural equality of argument tuples. -/
def Expr.decEqList : (a b : List Expr) → Decidable (a = b)
  | [], [] => isTrue rfl
  | x :: xs, y :: ys =>
      match Expr.decEq x y, Expr.decEqList xs ys with
      | isTrue h, isTrue h' => isTrue (by rw [h, h'])
      | isFalse h, _ => isFalse (by intro hh; cases hh; exact h rfl)
      | _, isFalse h' => isFalse (by intro hh; cases hh; exact h' rfl)
  | [], _ :: _ => isFalse (by intro h; cases h)
  | _ :: _, [] => isFalse (by intro h; cases h)

end

instance : DecidableEq Expr := Expr.decEq

/-- The `call=` branch of `Expr.__new__` (expr.py lines 64-66): the
constructor stores the whole call tuple and asserts that it is nonempty
(`assert len(self._args) >= 1`); `none` models the `AssertionError` raised
on an empty call tuple.  A call tuple `(f,)` — an application of `f` to
zero arguments — has length 1 and passes the assertion. -/
def Expr.newCall : List Expr → Option Expr
  | [] => none
  | h :: t => some (.App h t)

/-- `Expr.is_atom` (expr.py lines 168-171): true when `_args is None`. -/
def Expr.is_atom : Expr → Bool
  | .App _ _ => false
  | _ => true

/-- `Expr.is_symbol` (expr.py lines 173-174). -/
def Expr.is_symbol : Expr → Bool
  | .Symbol _ => true
  | _ => false

/-- `Expr.is_integer` (expr.py lines 176-177). -/
def Expr.is_integer : Expr → Bool
  | .Integer _ => true
  | _ => false

/-- `Expr.is_text` (expr.py lines 179-180). -/
def Expr.is_text : Expr → Bool
  | .Text _ => true
  | _ => false

/-- `Expr.head` (expr.py lines 182-185): `None` (here `none`) on atoms,
otherwise the first entry of the call tuple. -/
def Expr.head : Expr → Option Expr
  | .App h _ => some h
  | _ => none

/-- `Expr.args` (expr.py lines 187-190): `None` (here `none`) on atoms,
otherwise the remaining entries of the call tuple. -/
def Expr.args : Expr → Option (List Expr)
  | .App _ a => some a
  | _ => none

/-- `int(x)` on an integer atom (`Expr.__int__`, expr.py lines 165-166). -/
def Expr.toInt : Expr → Option Int
  | .Integer n => some n
  | _ => none

/-!
Builtin symbols (expr.py, `inject_builtin`, lines 1059-1227).  Only the
symbols reachable from the embedded fragment are declared; each is the
symbol atom carrying its own name.  They live in the namespace `Sym` so
that names such as `And`, `Not` or `Set` do not shadow the identically
named logical constants of Lean.
-/

namespace Sym

def True_ : Expr := .Symbol "True_"
def False_ : Expr := .Symbol "False_"
def Infinity : Expr := .Symbol "Infinity"
def UnsignedInfinity : Expr := .Symbol "UnsignedInfinity"
def Undefined : Expr := .Symbol "Undefined"
def Pi : Expr := .Symbol "Pi"
def ConstE : Expr := .Symbol "ConstE"
def ConstI : Expr := .Symbol "ConstI"
def ConstGamma : Expr := .Symbol "ConstGamma"
def ConstCatalan : Expr := .Symbol "ConstCatalan"
def GoldenRatio : Expr := .Symbol "GoldenRatio"
def ZZ : Expr := .Symbol "ZZ"
def QQ : Expr := .Symbol "QQ"
def RR : Expr := .Symbol "RR"
def CC : Expr := .Symbol "CC"
def PP : Expr := .Symbol "PP"
def HH : Expr := .Symbol "HH"
def AlgebraicNumbers : Expr := .Symbol "AlgebraicNumbers"
def ZZGreaterEqual : Expr := .Symbol "ZZGreaterEqual"
def ZZLessEqual : Expr := .Symbol "ZZLessEqual"
def Range : Expr := .Symbol "Range"
def ClosedInterval : Expr := .Symbol "ClosedInterval"
def OpenInterval : Expr := .Symbol "OpenInterval"
def ClosedOpenInterval : Expr := .Symbol "ClosedOpenInterval"
def OpenClosedInterval : Expr := .Symbol "OpenClosedInterval"
def Set : Expr := .Symbol "Set"
def Union : Expr := .Symbol "Union"
def Intersection : Expr := .Symbol "Intersection"
def SetMinus : Expr := .Symbol "SetMinus"
def Not : Expr := .Symbol "Not"
def And : Expr := .Symbol "And"
def Or : Expr := .Symbol "Or"
def Implies : Expr := .Symbol "Implies"
def Equal : Expr := .Symbol "Equal"
def NotEqual : Expr := .Symbol "NotEqual"
def Element : Expr := .Symbol "Element"
def NotElement : Expr := .Symbol "NotElement"
def Less : Expr := .Symbol "Less"
def LessEqual : Expr := .Symbol "LessEqual"
def Greater : Expr := .Symbol "Greater"
def GreaterEqual : Expr := .Symbol "GreaterEqual"
def Pos : Expr := .Symbol "Pos"
def Neg : Expr := .Symbol "Neg"
def Add : Expr := .Symbol "Add"
def Sub : Expr := .Symbol "Sub"
def Mul : Expr := .Symbol "Mul"
def Div : Expr := .Symbol "Div"
def Pow : Expr := .Symbol "Pow"
def Sqrt : Expr := .Symbol "Sqrt"
def Exp : Expr := .Symbol "Exp"
def Log : Expr := .Symbol "Log"
def Sin : Expr := .Symbol "Sin"
def Cos : Expr := .Symbol "Cos"
def Tan : Expr := .Symbol "Tan"
def Cot : Expr := .Symbol "Cot"
def Csc : Expr := .Symbol "Csc"
def Sec : Expr := .Symbol "Sec"
def Sinh : Expr := .Symbol "Sinh"
def Cosh : Expr := .Symbol "Cosh"
def Tanh : Expr := .Symbol "Tanh"
def Gamma : Expr := .Symbol "Gamma"
def Erf : Expr := .Symbol "Erf"
def Erfc : Expr := .Symbol "Erfc"
def Erfi : Expr := .Symbol "Erfi"
def RiemannZeta : Expr := .Symbol "RiemannZeta"
def Factorial : Expr := .Symbol "Factorial"
def Im : Expr := .Symbol "Im"
def For : Expr := .Symbol "For"
def ForElement : Expr := .Symbol "ForElement"
def Sum : Expr := .Symbol "Sum"
def Where : Expr := .Symbol "Where"
def Parentheses : Expr := .Symbol "Parentheses"
def Brackets : Expr := .Symbol "Brackets"
def Braces : Expr := .Symbol "Braces"
def Entry : Expr := .Symbol "Entry"
def ID : Expr := .Symbol "ID"
def Formula : Expr := .Symbol "Formula"
def Variables : Expr := .Symbol "Variables"
def Assumptions : Expr := .Symbol "Assumptions"
def Tuple : Expr := .Symbol "Tuple"

end Sym

/-- Application of a term to one argument (`Expr.__call__`, expr.py
lines 192-193; the call tuple is nonempty, so the constructor's
assertion always passes). -/
def Expr.app1 (h a : Expr) : Expr := .App h [a]

/-- Application of a term to two arguments. -/
def Expr.app2 (h a b : Expr) : Expr := .App h [a, b]

/-- Application of a term to three arguments. -/
def Expr.app3 (h a b c : Expr) : Expr := .App h [a, b, c]

mutual

/-- `expr.replace(rules)` in the default plain mode (expr.py lines
396-407): if the whole expression is a key of the map, return its image;
atoms and empty maps return the expression unchanged; otherwise
substitute recursively in every entry of the call tuple (head
included). -/
def Expr.replace (rules : List (Expr × Expr)) (e : Expr) : Expr :=
  match (rules.lookup e : Option Expr) with
  | some v => v
  | none =>
    if rules = [] then e
    else
      match e with
      | .App h a => .App (Expr.replace rules h) (Expr.replaceList rules a)
      | e => e

/-- `replace` mapped over an argument tuple. -/
def Expr.replaceList (rules : List (Expr × Expr)) : List Expr → List Expr
  | [] => []
  | x :: xs => Expr.replace rules x :: Expr.replaceList rules xs

end

mutual

/-- `expr.head_args_flattened(head)` (expr.py lines 520-535). -/
def Expr.head_args_flattened : Expr → Expr → List Expr
  | .App h' as, h =>
      if h' = h then Expr.flattenedList h as else [.App h' as]
  | e, _ => [e]

/-- `head_args_flattened` folded over an argument tuple. -/
def Expr.flattenedList (h : Expr) : List Expr → List Expr
  | [] => []
  | x :: xs => Expr.head_args_flattened x h ++ Expr.flattenedList h xs

end

/-- Scan of the argument tuple used by `get_arg_with_head`. -/
def Expr.firstWithHead (h : Expr) : List Expr → Option Expr
  | [] => none
  | a :: as =>
      if a.is_atom = false ∧ a.head = some h then some a
      else Expr.firstWithHead h as

/-- `entry.get_arg_with_head(head)` (expr.py lines 759-763): the first
argument that is a non-atom with the given head, else `None`. -/
def Expr.get_arg_with_head (e h : Expr) : Option Expr :=
  match e.args with
  | none => none
  | some as => Expr.firstWithHead h as

/-- `entry.id()` (expr.py lines 765-767): the text payload of the second
entry of the `ID(...)` argument's call tuple; `none` models the attribute
errors raised when the shape is different. -/
def Expr.entry_id (e : Expr) : Option String :=
  match e.get_arg_with_head Sym.ID with
  | some (.App _ (.Text s :: _)) => some s
  | _ => none

mutual

/-- `Expr.str` (expr.py lines 231-248), used by the simplifier only as the
deterministic tie-breaking sort key.  The `level` parameter of the source
only affects the joining of `Entry(...)` arguments, which is reproduced. -/
def Expr.str : Expr → String
  | .Symbol s => s
  | .Integer n => toString n
  | .Text s => "\"" ++ s.replace "\"" "\\\"" ++ "\""
  | .App h as =>
      let fstr := Expr.str h
      let argstrs := Expr.strList as
      if h = Sym.Entry then
        fstr ++ "(" ++ String.intercalate ",\n    " argstrs ++ ")"
      else
        fstr ++ "(" ++ String.intercalate ", " argstrs ++ ")"

/-- `Expr.str` mapped over an argument tuple. -/
def Expr.strList : List Expr → List String
  | [] => []
  | x :: xs => Expr.str x :: Expr.strList xs

end

/-!
Result types.  Python's three-valued predicate results (`True`, `False`,
`None`) become `Ternary`; raised exceptions become `Err`; a computation
returns a value, raises, or runs out of fuel (`spin`).
-/

/-- Three-valued predicate result: Python `True` / `False` / `None`. -/
inductive Ternary where
  | yes
  | no
  | unknown
deriving DecidableEq

/-- Python truthiness of a predicate result: only `True` is truthy. -/
def Ternary.truthy : Ternary → Bool
  | .yes => true
  | _ => false

/-- Python `not v` for a predicate result: `False` and `None` are falsy. -/
def Ternary.falsy : Ternary → Bool
  | .yes => false
  | _ => true

/-- Embed a Python `bool` into a predicate result. -/
def Ternary.ofBool : Bool → Ternary
  | true => .yes
  | false => .no

/-- The exception classes raised by the embedded code. -/
inductive Err where
  | assertionError
  | valueError
  | notImplementedError
  | zeroDivisionError
  | typeError
  | keyError
  | attributeError
  | indexError
deriving DecidableEq

/-- Result of a stateless computation: a value, a raised exception, or
out of fuel. -/
inductive Res (α : Type) where
  | ok (a : α)
  | exn (e : Err)
  | spin
deriving DecidableEq

instance : Monad Res where
  pure a := .ok a
  bind m f := match m with
    | .ok a => f a
    | .exn e => .exn e
    | .spin => .spin

/-- The mutable state threaded through the simplifier: the session's
memoization cache `simple_cache` (brain.py line 281; `none` is the
in-progress marker of lines 355-361) and the process-wide degree and
bit-size budgets of the algebraic backend.

Modelled from the spec: the budgets are the gettable/settable global
configuration of the external Algebraic Backend (`pygrim/algebraic.py`,
not part of the sources); spec section 6 describes them as plain global
values read by every backend operation. -/
structure St where
  cache : List (Expr × Option Expr)
  degree_limit : Int
  bits_limit : Int
deriving DecidableEq

/-- Result of a stateful computation: a value or a raised exception, in
both cases together with the state at that moment, or out of fuel. -/
inductive SRes (α : Type) where
  | ok (a : α) (s : St)
  | exn (e : Err) (s : St)
  | spin
deriving DecidableEq

/-- Stateful computations over `St`. -/
def M (α : Type) : Type := St → SRes α

instance : Monad M where
  pure a := fun s => .ok a s
  bind m f := fun s =>
    match m s with
    | .ok a s' => f a s'
    | .exn e s' => .exn e s'
    | .spin => .spin

/-- Raise an exception. -/
def M.raise {α : Type} (e : Err) : M α := fun s => .exn e s

/-- Out of fuel. -/
def M.spin {α : Type} : M α := fun _ => .spin

/-- Lift a stateless result into the stateful monad. -/
def M.lift {α : Type} : Res α → M α
  | .ok a => pure a
  | .exn e => fun s => .exn e s
  | .spin => fun _ => .spin

/-- `self.simple_cache.get(expr)`-style lookup distinguishing a missing
key from the in-progress marker `None`. -/
def M.cacheGet (e : Expr) : M (Option (Option Expr)) := fun s =>
  .ok (s.cache.lookup e) s

/-- `self.simple_cache[key] = value` (overwriting assignment). -/
def M.cacheSet (e : Expr) (v : Option Expr) : M Unit := fun s =>
  .ok () { s with cache := (e, v) :: s.cache.eraseP (fun p => p.1 = e) }

/-- `alg_get_degree_limit()`.  Modelled from the spec: the Algebraic
Backend exposes a gettable global degree budget. -/
def M.alg_get_degree_limit : M Int := fun s => .ok s.degree_limit s

/-- `alg_get_bits_limit()`.  Modelled from the spec: the Algebraic
Backend exposes a gettable global bit-size budget. -/
def M.alg_get_bits_limit : M Int := fun s => .ok s.bits_limit s

/-- `alg_set_degree_limit(v)`.  Modelled from the spec: the settable
counterpart of the degree budget. -/
def M.alg_set_degree_limit (v : Int) : M Unit := fun s =>
  .ok () { s with degree_limit := v }

/-- `alg_set_bits_limit(v)`.  Modelled from the spec: the settable
counterpart of the bit-size budget. -/
def M.alg_set_bits_limit (v : Int) : M Unit := fun s =>
  .ok () { s with bits_limit := v }

/-!
Exact rational arithmetic.  Modelled from the spec (section 6): the
simplifier consumes exact integer (`fmpz`) and rational (`fmpq`)
arithmetic from the flint library.  The source branches on the dynamic
type (`isinstance(c, fmpq)`), and flint never demotes an `fmpq` back to
`fmpz`, so the model tracks the dynamic type.
-/

/-- A flint number: an exact integer (`fmpz`) or an exact rational
(`fmpq`, always kept in reduced form with positive denominator, which is
what `ℚ` provides). -/
inductive Coeff where
  | z (n : Int)
  | q (v : ℚ)
deriving DecidableEq

/-- The rational value of a flint number. -/
def Coeff.toQ : Coeff → ℚ
  | .z n => (n : ℚ)
  | .q v => v

/-- flint addition: `fmpz + fmpz` is `fmpz`, any `fmpq` operand makes the
result `fmpq`. -/
def Coeff.add : Coeff → Coeff → Coeff
  | .z a, .z b => .z (a + b)
  | a, b => .q (a.toQ + b.toQ)

/-- flint negation preserves the dynamic type. -/
def Coeff.neg : Coeff → Coeff
  | .z a => .z (-a)
  | .q a => .q (-a)

/-- flint multiplication: `fmpz * fmpz` is `fmpz`, any `fmpq` operand
makes the result `fmpq`. -/
def Coeff.mul : Coeff → Coeff → Coeff
  | .z a, .z b => .z (a * b)
  | a, b => .q (a.toQ * b.toQ)

/-- flint division by an `fmpq`: the result is `fmpq`; division by zero
raises `ZeroDivisionError`. -/
def Coeff.divQ (c : Coeff) (d : ℚ) : Res Coeff :=
  if d = 0 then .exn .zeroDivisionError else .ok (.q (c.toQ / d))

/-- `fmpq(p, q)`: reduced fraction, `ZeroDivisionError` on a zero
denominator. -/
def mkFmpq (p q : Int) : Res ℚ :=
  if q = 0 then .exn .zeroDivisionError else .ok ((p : ℚ) / (q : ℚ))

/-- Comparison of a flint number with a Python int (by value, as flint
does). -/
def Coeff.eqInt (c : Coeff) (n : Int) : Bool := c.toQ = (n : ℚ)

/-- `isinstance(c, fmpq)`. -/
def Coeff.isFmpq : Coeff → Bool
  | .q _ => true
  | .z _ => false

/-!
Numeric oracle values.  Modelled from the spec (section 6): the oracle
returns sound real or complex interval enclosures, or `None` on
unsupported shapes.  A real enclosure (`arb`) is an interval with
rational endpoints; a complex enclosure (`acb`) is a box.  The
comparison operators of arb/acb decide a relation only when it holds for
every point of the enclosure, which is what the operations below
implement.
-/

/-- A real enclosure (`arb`): the interval `[lo, hi]`. -/
structure RB where
  lo : ℚ
  hi : ℚ
deriving DecidableEq

/-- `v <= 0` on an arb ball: true only if the whole interval is `≤ 0`. -/
def RB.le_zero (v : RB) : Bool := v.hi ≤ 0

/-- `v < 0` on an arb ball. -/
def RB.lt_zero (v : RB) : Bool := v.hi < 0

/-- `v >= 0` on an arb ball. -/
def RB.ge_zero (v : RB) : Bool := v.lo ≥ 0

/-- `v > 0` on an arb ball. -/
def RB.gt_zero (v : RB) : Bool := v.lo > 0

/-- A complex enclosure (`acb`): the box `[relo, rehi] × [imlo, imhi]`. -/
structure CB where
  relo : ℚ
  rehi : ℚ
  imlo : ℚ
  imhi : ℚ
deriving DecidableEq

/-- `val.contains(0)`: the box contains the origin. -/
def CB.containsZero (v : CB) : Bool :=
  v.relo ≤ 0 ∧ 0 ≤ v.rehi ∧ v.imlo ≤ 0 ∧ 0 ≤ v.imhi

/-- `val != 0` on an acb: true only if the box excludes the origin. -/
def CB.neZero (v : CB) : Bool := !v.containsZero

/-- `val.real == 0`: the real part is exactly zero. -/
def CB.realIsZero (v : CB) : Bool := v.relo = 0 ∧ v.rehi = 0

/-- `val.imag == 0`: the imaginary part is exactly zero. -/
def CB.imagIsZero (v : CB) : Bool := v.imlo = 0 ∧ v.imhi = 0

/-- `val.imag != 0`: the imaginary part excludes zero. -/
def CB.imagNeZero (v : CB) : Bool := v.imlo > 0 ∨ v.imhi < 0

/-- `val.real >= 0`: the whole real part is nonnegative. -/
def CB.realGeZero (v : CB) : Bool := v.relo ≥ 0

/-- `val.real > 0`. -/
def CB.realGtZero (v : CB) : Bool := v.relo > 0

/-- `val.real < 0`. -/
def CB.realLtZero (v : CB) : Bool := v.rehi < 0

/-- `val.real <= 0`. -/
def CB.realLeZero (v : CB) : Bool := v.rehi ≤ 0

/-- `val.overlaps(other)`: the boxes intersect. -/
def CB.overlaps (v w : CB) : Bool :=
  v.relo ≤ w.rehi ∧ w.relo ≤ v.rehi ∧ v.imlo ≤ w.imhi ∧ w.imlo ≤ v.imhi

/-- `val.contains_integer()`: the box contains a (real) integer, i.e. the
imaginary part contains zero and the real interval contains an integer. -/
def CB.contains_integer (v : CB) : Bool :=
  v.imlo ≤ 0 ∧ 0 ≤ v.imhi ∧ ⌈v.relo⌉ ≤ ⌊v.rehi⌋

/-- An exact algebraic number of the backend.  Modelled from the spec:
the Algebraic Backend computes with exact algebraic numbers; only their
decidable equality is consumed by the embedded fragment, so the carrier
is left as an exact rational stand-in. -/
def AlgV : Type := ℚ

instance : DecidableEq AlgV := by unfold AlgV; infer_instance

/-- The session context fixed at construction time: the fact set
`inferences` (constant after `Brain.__init__`), the complexity-penalty
override map, the knowledge-base tables of `FungrimBrain.__init__`
(empty for a plain `Brain`), the formula corpus, and whether the session
is a `FungrimBrain` (whose overriding `simple` the handlers call back
into, Python dispatching `self.simple` dynamically). -/
structure Ctx where
  inf : List Expr
  penalty : List (Expr × Int)
  exprDb : List (Expr × Expr)
  matchDb : List (Option Expr × List String)
  entries : List Expr
  fb : Bool
deriving DecidableEq

/-- `positive_real_constants` (brain.py line 111). -/
def positive_real_constants : List Expr :=
  [Sym.Pi, Sym.ConstE, Sym.ConstGamma, Sym.ConstCatalan, Sym.GoldenRatio]

/-- `complex_constants` (brain.py line 113). -/
def complex_constants : List Expr :=
  [Sym.Pi, Sym.ConstE, Sym.ConstGamma, Sym.ConstCatalan, Sym.GoldenRatio,
   Sym.ConstI]

/-- Binary length of a natural number, computed with an explicit fuel so
the kernel can evaluate it on closed inputs (`fuel = n + 1` always
suffices since the binary length of `n` is at most `n + 1`). -/
def bitLenAux : Nat → Nat → Nat
  | 0, _ => 0
  | fuel+1, n => if n = 0 then 0 else bitLenAux fuel (n / 2) + 1

/-- Python `v.bit_length()`: the number of bits of `|v|`. -/
def pyBitLength (v : Int) : Int := (bitLenAux (v.natAbs + 1) v.natAbs : Int)

/-- The atom branch of `Brain.complexity` (brain.py lines 1299-1313):
an integer atom costs `1 + v.bit_length() + (v < 0)`; other atoms cost
according to the fixed table, defaulting to 1000000. -/
def Brain.complexity_atom (expr : Expr) : Int :=
  match expr.toInt with
  | some v => 1 + pyBitLength v + (if v < 0 then 1 else 0)
  | none =>
    if expr = Sym.True_ ∨ expr = Sym.False_ then 1
    else if expr = Sym.Add ∨ expr = Sym.Sub ∨ expr = Sym.Neg ∨
        expr = Sym.Pos ∨ expr = Sym.Mul then 10
    else if expr = Sym.Div ∨ expr = Sym.Sqrt ∨ expr = Sym.GoldenRatio ∨
        expr = Sym.ConstI then 20
    else if expr = Sym.Pi ∨ expr = Sym.ConstE ∨ expr = Sym.Pow ∨
        expr = Sym.Exp ∨ expr = Sym.Log ∨ expr = Sym.Sin ∨
        expr = Sym.Cos ∨ expr = Sym.Tan ∨ expr = Sym.Sinh ∨
        expr = Sym.Cosh ∨ expr = Sym.Tanh then 100
    else if expr = Sym.Gamma ∨ expr = Sym.Erf ∨ expr = Sym.Erfc ∨
        expr = Sym.Erfi ∨ expr = Sym.RiemannZeta ∨
        expr = Sym.ConstGamma ∨ expr = Sym.ConstCatalan then 1000
    else 1000000

mutual

/-- `Brain.complexity` (brain.py lines 1296-1318): the deterministic
complexity metric.  The penalty override map is consulted first; atoms
cost according to `Brain.complexity_atom`; an application costs
`complexity(head) + 2 * sum(complexity(arg)) + 1`. -/
def Brain.complexity (penalty : List (Expr × Int)) : Expr → Int
  | .App h as =>
      match (penalty.lookup (Expr.App h as) : Option Int) with
      | some p => p
      | none =>
          Brain.complexity penalty h + 2 * Brain.complexityList penalty as + 1
  | e =>
      match (penalty.lookup e : Option Int) with
      | some p => p
      | none => Brain.complexity_atom e

/-- `sum(self.complexity(arg) for arg in args)`. -/
def Brain.complexityList (penalty : List (Expr × Int)) : List Expr → Int
  | [] => 0
  | x :: xs => Brain.complexity penalty x + Brain.complexityList penalty xs

end

/-- Lazy Python `all(...)` over a generator of truthiness tests: stop at
the first non-truthy element. -/
def allBoolRes (f : Expr → Res Bool) : List Expr → Res Bool
  | [] => .ok true
  | x :: xs => do
      let v ← f x
      if v then allBoolRes f xs else pure false

/-- Lazy Python `any(...)` over a generator of truthiness tests: stop at
the first truthy element. -/
def anyBoolRes (f : Expr → Res Bool) : List Expr → Res Bool
  | [] => .ok false
  | x :: xs => do
      let v ← f x
      if v then pure true else anyBoolRes f xs

section PureCluster

variable (encl : Expr → Option CB)

mutual

/-- `Brain.is_zero` (brain.py lines 380-405). -/
def Brain.is_zero (fuel : Nat) (inf : List Expr) (x : Expr) : Res Ternary :=
  match fuel with
  | 0 => .spin
  | fuel + 1 =>
    match x.toInt with
    | some v => .ok (.ofBool (v = 0))
    | none =>
      if Sym.Equal.app2 x (.Integer 0) ∈ inf then .ok .yes
      else if Sym.NotEqual.app2 x (.Integer 0) ∈ inf then .ok .no
      else if Sym.Greater.app2 x (.Integer 0) ∈ inf then .ok .no
      else if Sym.Less.app2 x (.Integer 0) ∈ inf then .ok .no
      else do
        let vint ← Brain.is_integer fuel inf x
        if vint = .no then pure .no
        else do
          let vpos ← Brain.is_positive fuel inf x
          if vpos.truthy then pure .no
          else
            match encl x with
            | some val =>
                if val.neZero then pure .no
                else do
                  let vinf ← Brain.is_infinity fuel inf x
                  if vinf.truthy then pure .no else pure .unknown
            | none => do
                let vinf ← Brain.is_infinity fuel inf x
                if vinf.truthy then pure .no else pure .unknown

/-- `Brain.is_not_zero` (brain.py lines 407-415). -/
def Brain.is_not_zero (fuel : Nat) (inf : List Expr) (x : Expr) : Res Ternary :=
  match fuel with
  | 0 => .spin
  | fuel + 1 => do
    let v ← Brain.is_zero fuel inf x
    match v with
    | .unknown => pure .unknown
    | .yes => pure .no
    | .no => pure .yes

/-- `Brain.is_infinity` (brain.py lines 417-442). -/
def Brain.is_infinity (fuel : Nat) (inf : List Expr) (x : Expr) : Res Ternary :=
  match fuel with
  | 0 => .spin
  | fuel + 1 =>
    if x = Sym.Infinity then .ok .yes
    else if x = Sym.UnsignedInfinity then .ok .yes
    else if x = Sym.Undefined then .ok .no
    else if Sym.Element.app2 x Sym.CC ∈ inf then .ok .no
    else do
      let r1 : Option Ternary ←
        if x.head = some Sym.Pos ∨ x.head = some Sym.Neg then
          match x.args with
          | some [arg] => do
              let v ← Brain.is_infinity fuel inf arg
              if v.truthy then pure (some Ternary.yes) else pure none
          | _ => .exn .valueError
        else pure none
      match r1 with
      | some t => pure t
      | none => do
        let r2 : Option Ternary ←
          if x.head = some Sym.Mul then
            match x.args with
            | some args => do
                let a ← anyBoolRes (fun arg => do
                    let v ← Brain.is_infinity fuel inf arg
                    pure v.truthy) args
                if a then do
                  let b ← allBoolRes (fun arg => do
                      let v ← Brain.is_infinity fuel inf arg
                      if v.truthy then pure true
                      else do
                        let c ← Brain.is_complex fuel inf arg
                        if c.truthy then do
                          let nz ← Brain.is_not_zero fuel inf arg
                          pure nz.truthy
                        else pure false) args
                  if b then pure (some Ternary.yes) else pure none
                else pure none
            | none => pure none
          else pure none
        match r2 with
        | some t => pure t
        | none =>
          match encl x with
          | some _ => pure Ternary.no
          | none => pure Ternary.unknown

/-- `Brain.is_nonnegative` (brain.py lines 444-478). -/
def Brain.is_nonnegative (fuel : Nat) (inf : List Expr) (x : Expr) : Res Ternary :=
  match fuel with
  | 0 => .spin
  | fuel + 1 =>
    match x.toInt with
    | some v => .ok (.ofBool (v ≥ 0))
    | none =>
      if x ∈ positive_real_constants then .ok .yes
      else if Sym.GreaterEqual.app2 x (.Integer 0) ∈ inf then .ok .yes
      else if Sym.Greater.app2 x (.Integer 0) ∈ inf then .ok .yes
      else if Sym.Less.app2 x (.Integer 0) ∈ inf then .ok .no
      else do
        let vre ← Brain.is_real fuel inf x
        let struct : Option Ternary ←
          if vre.truthy then do
            let r1 : Option Ternary ←
              if x.head = some Sym.Pos ∨ x.head = some Sym.Add ∨
                  x.head = some Sym.Mul ∨ x.head = some Sym.Exp ∨
                  x.head = some Sym.Sqrt then do
                let b ← allBoolRes (fun arg => do
                    let v ← Brain.is_nonnegative fuel inf arg
                    pure v.truthy) (x.args.getD [])
                if b then pure (some Ternary.yes) else pure none
              else pure none
            match r1 with
            | some t => pure (some t)
            | none => do
              let r2 : Option Ternary ←
                if x.head = some Sym.Div then
                  match x.args with
                  | some [p, q] => do
                      let vp ← Brain.is_nonnegative fuel inf p
                      if vp.truthy then do
                        let vq ← Brain.is_positive fuel inf q
                        if vq.truthy then pure (some Ternary.yes) else pure none
                      else pure none
                  | _ => .exn .valueError
                else pure none
              match r2 with
              | some t => pure (some t)
              | none =>
                if x.head = some Sym.Pow then
                  match x.args with
                  | some [base, _exp] => do
                      let vb ← Brain.is_positive fuel inf base
                      if vb.truthy then pure (some Ternary.yes) else pure none
                  | _ => .exn .valueError
                else pure none
          else pure none
        match struct with
        | some t => pure t
        | none =>
          match encl x with
          | some val =>
              if val.imagIsZero ∧ val.realGeZero then pure .yes
              else if val.imagNeZero ∨ val.realLtZero then pure .no
              else pure .unknown
          | none => pure .unknown

/-- `Brain.is_positive` (brain.py lines 480-518). -/
def Brain.is_positive (fuel : Nat) (inf : List Expr) (x : Expr) : Res Ternary :=
  match fuel with
  | 0 => .spin
  | fuel + 1 =>
    match x.toInt with
    | some v => .ok (.ofBool (v > 0))
    | none =>
      if x ∈ positive_real_constants then .ok .yes
      else if Sym.Greater.app2 x (.Integer 0) ∈ inf then .ok .yes
      else if Sym.LessEqual.app2 x (.Integer 0) ∈ inf then .ok .no
      else if Sym.Less.app2 x (.Integer 0) ∈ inf then .ok .no
      else do
        let vre ← Brain.is_real fuel inf x
        let struct : Option Ternary ←
          if vre.truthy then do
            let r0 : Option Ternary ←
              if x.head = some Sym.Exp ∨ x.head = some Sym.Cosh then
                match x.args with
                | some [t] => do
                    let v ← Brain.is_real fuel inf t
                    if v.truthy then pure (some Ternary.yes) else pure none
                | _ => .exn .valueError
              else pure none
            match r0 with
            | some t => pure (some t)
            | none => do
              let r1 : Option Ternary ←
                if x.head = some Sym.Pos ∨ x.head = some Sym.Add ∨
                    x.head = some Sym.Mul ∨ x.head = some Sym.Sqrt then do
                  let b ← allBoolRes (fun arg => do
                      let v ← Brain.is_positive fuel inf arg
                      pure v.truthy) (x.args.getD [])
                  if b then pure (some Ternary.yes) else pure none
                else pure none
              match r1 with
              | some t => pure (some t)
              | none => do
                let r2 : Option Ternary ←
                  if x.head = some Sym.Div then
                    match x.args with
                    | some [p, q] => do
                        let vp ← Brain.is_positive fuel inf p
                        if vp.truthy then do
                          let vq ← Brain.is_positive fuel inf q
                          if vq.truthy then pure (some Ternary.yes) else pure none
                        else pure none
                    | _ => .exn .valueError
                  else pure none
                match r2 with
                | some t => pure (some t)
                | none =>
                  if x.head = some Sym.Pow then
                    match x.args with
                    | some [base, _exp] => do
                        let vb ← Brain.is_positive fuel inf base
                        if vb.truthy then pure (some Ternary.yes) else pure none
                    | _ => .exn .valueError
                  else pure none
          else pure none
        match struct with
        | some t => pure t
        | none =>
          match encl x with
          | some val =>
              if val.imagIsZero ∧ val.realGtZero then pure .yes
              else if val.imagNeZero ∨ val.realLeZero then pure .no
              else pure .unknown
          | none => pure .unknown

/-- `Brain.is_negative` (brain.py lines 520-542). -/
def Brain.is_negative (fuel : Nat) (inf : List Expr) (x : Expr) : Res Ternary :=
  match fuel with
  | 0 => .spin
  | _fuel + 1 =>
    match x.toInt with
    | some v => .ok (.ofBool (v < 0))
    | none =>
      if x ∈ positive_real_constants then .ok .no
      else if Sym.Less.app2 x (.Integer 0) ∈ inf then .ok .yes
      else if Sym.GreaterEqual.app2 x (.Integer 0) ∈ inf then .ok .no
      else if Sym.Greater.app2 x (.Integer 0) ∈ inf then .ok .no
      else
        match encl x with
        | some val =>
            if val.imagIsZero ∧ val.realLtZero then .ok .yes
            else if val.imagNeZero ∨ val.realGeZero then .ok .no
            else .ok .unknown
        | none => .ok .unknown

/-- `Brain.is_nonpositive` (brain.py lines 544-566). -/
def Brain.is_nonpositive (fuel : Nat) (inf : List Expr) (x : Expr) : Res Ternary :=
  match fuel with
  | 0 => .spin
  | _fuel + 1 =>
    match x.toInt with
    | some v => .ok (.ofBool (v ≤ 0))
    | none =>
      if x ∈ positive_real_constants then .ok .no
      else if Sym.LessEqual.app2 x (.Integer 0) ∈ inf then .ok .yes
      else if Sym.Less.app2 x (.Integer 0) ∈ inf then .ok .yes
      else if Sym.Greater.app2 x (.Integer 0) ∈ inf then .ok .no
      else
        match encl x with
        | some val =>
            if val.imagIsZero ∧ val.realLeZero then .ok .yes
            else if val.imagNeZero ∨ val.realGtZero then .ok .no
            else .ok .unknown
        | none => .ok .unknown

/-- `Brain.is_integer` (brain.py lines 568-598). -/
def Brain.is_integer (fuel : Nat) (inf : List Expr) (x : Expr) : Res Ternary :=
  match fuel with
  | 0 => .spin
  | fuel + 1 =>
    if x.is_integer then .ok .yes
    else if Sym.Element.app2 x Sym.ZZ ∈ inf then .ok .yes
    else if Sym.NotElement.app2 x Sym.ZZ ∈ inf then .ok .no
    else do
      let r1 : Option Ternary ←
        if x.head = some Sym.Pos ∨ x.head = some Sym.Neg ∨
            x.head = some Sym.Add ∨ x.head = some Sym.Sub ∨
            x.head = some Sym.Mul then do
          let b ← allBoolRes (fun arg => do
              let v ← Brain.is_integer fuel inf arg
              pure v.truthy) (x.args.getD [])
          if b then pure (some Ternary.yes) else pure none
        else pure none
      match r1 with
      | some t => pure t
      | none => do
        let r2 : Option Ternary ←
          if x.head = some Sym.Pow then
            match x.args with
            | some [base, exp] => do
                let vb ← Brain.is_integer fuel inf base
                if vb.truthy then do
                  let ve ← Brain.is_integer fuel inf exp
                  if ve.truthy then do
                    let vn ← Brain.is_nonnegative fuel inf exp
                    if vn.truthy then pure (some Ternary.yes) else pure none
                  else pure none
                else pure none
            | _ => .exn .valueError
          else pure none
        match r2 with
        | some t => pure t
        | none => do
          let r3 : Option Ternary ←
            if x.head = some Sym.Factorial then
              match x.args with
              | some [n] => do
                  let vb ← Brain.is_integer fuel inf n
                  if vb.truthy then do
                    let vn ← Brain.is_nonnegative fuel inf n
                    if vn.truthy then pure (some Ternary.yes) else pure none
                  else pure none
              | _ => .exn .valueError
            else pure none
          match r3 with
          | some t => pure t
          | none =>
            if x ∈ complex_constants then pure .no
            else do
              let excl : Option Ternary :=
                match encl x with
                | some val => if !val.contains_integer then some .no else none
                | none => none
              match excl with
              | some t => pure t
              | none => do
                let vinf ← Brain.is_infinity fuel inf x
                if vinf.truthy ∨ x = Sym.Undefined then pure .no
                else pure .unknown

/-- `Brain.is_rational` (brain.py lines 603-638). -/
def Brain.is_rational (fuel : Nat) (inf : List Expr) (x : Expr) : Res Ternary :=
  match fuel with
  | 0 => .spin
  | fuel + 1 => do
    let vint ← Brain.is_integer fuel inf x
    if vint.truthy then pure .yes
    else if Sym.Element.app2 x Sym.QQ ∈ inf then pure .yes
    else if Sym.NotElement.app2 x Sym.QQ ∈ inf then pure .no
    else if x = Sym.Pi ∨ x = Sym.ConstE then pure .no
    else do
      let r1 : Option Ternary ←
        if x.head = some Sym.Pos ∨ x.head = some Sym.Neg ∨
            x.head = some Sym.Add ∨ x.head = some Sym.Sub ∨
            x.head = some Sym.Mul then do
          let b ← allBoolRes (fun arg => do
              let v ← Brain.is_rational fuel inf arg
              pure v.truthy) (x.args.getD [])
          if b then pure (some Ternary.yes) else pure none
        else pure none
      match r1 with
      | some t => pure t
      | none => do
        let r2 : Option Ternary ←
          if x.head = some Sym.Div then
            match x.args with
            | some [p, q] => do
                let vp ← Brain.is_rational fuel inf p
                if vp.truthy then do
                  let vq ← Brain.is_rational fuel inf q
                  if vq.truthy then do
                    let nz ← Brain.is_not_zero fuel inf q
                    if nz.truthy then pure (some Ternary.yes) else pure none
                  else pure none
                else pure none
            | _ => .exn .valueError
          else pure none
        match r2 with
        | some t => pure t
        | none => do
          let r3 : Option Ternary ←
            if x.head = some Sym.Pow then
              match x.args with
              | some [base, exp] => do
                  let vb ← Brain.is_rational fuel inf base
                  if vb.truthy then do
                    let ve ← Brain.is_integer fuel inf exp
                    if ve.truthy then do
                      let nz ← Brain.is_not_zero fuel inf base
                      if nz.truthy then pure (some Ternary.yes)
                      else do
                        let vn ← Brain.is_nonnegative fuel inf exp
                        if vn.truthy then pure (some Ternary.yes) else pure none
                    else pure none
                  else pure none
              | _ => .exn .valueError
            else pure none
          match r3 with
          | some t => pure t
          | none => do
            let r4 : Option Ternary ←
              if x.head = some Sym.Sqrt then
                match x.args with
                | some [v] =>
                    match v.toInt with
                    | some n =>
                        if n < 0 then pure (some Ternary.no)
                        else if n ≤ 100 then
                          pure (some (Ternary.ofBool
                            (n ∈ ([0, 1, 4, 9, 16, 25, 36, 49, 64, 81, 100] : List Int))))
                        else pure none
                    | none => pure none
                | _ => .exn .valueError
              else pure none
            match r4 with
            | some t => pure t
            | none => do
              let vinf ← Brain.is_infinity fuel inf x
              if vinf.truthy ∨ x = Sym.Undefined then pure .no
              else pure .unknown

/-- `Brain.is_real` (brain.py lines 694-741). -/
def Brain.is_real (fuel : Nat) (inf : List Expr) (x : Expr) : Res Ternary :=
  match fuel with
  | 0 => .spin
  | fuel + 1 => do
    let vq ← Brain.is_rational fuel inf x
    if vq.truthy then pure .yes
    else if Sym.Element.app2 x Sym.RR ∈ inf then pure .yes
    else if Sym.NotElement.app2 x Sym.RR ∈ inf then pure .no
    else if x = Sym.Pi ∨ x = Sym.ConstGamma ∨ x = Sym.ConstE ∨
        x = Sym.ConstCatalan then pure .yes
    else if x = Sym.ConstI then pure .no
    else do
      let r1 : Option Ternary ←
        if x.head = some Sym.Pos ∨ x.head = some Sym.Neg ∨
            x.head = some Sym.Add ∨ x.head = some Sym.Sub ∨
            x.head = some Sym.Mul ∨ x.head = some Sym.Exp ∨
            x.head = some Sym.Sin ∨ x.head = some Sym.Cos then do
          let b ← allBoolRes (fun arg => do
              let v ← Brain.is_real fuel inf arg
              pure v.truthy) (x.args.getD [])
          if b then pure (some Ternary.yes) else pure none
        else pure none
      match r1 with
      | some t => pure t
      | none => do
        let r2 : Option Ternary ←
          if x.head = some Sym.Div then
            match x.args with
            | some [p, q] => do
                let vp ← Brain.is_real fuel inf p
                if vp.truthy then do
                  let vq2 ← Brain.is_real fuel inf q
                  if vq2.truthy then do
                    let nz ← Brain.is_not_zero fuel inf q
                    if nz.truthy then pure (some Ternary.yes) else pure none
                  else pure none
                else pure none
            | _ => .exn .valueError
          else pure none
        match r2 with
        | some t => pure t
        | none => do
          let r3 : Option Ternary ←
            if x.head = some Sym.Sqrt then
              match x.args with
              | some [arg] => do
                  let va ← Brain.is_real fuel inf arg
                  if va.truthy then do
                    let vn ← Brain.is_nonnegative fuel inf arg
                    if vn.truthy then pure (some Ternary.yes) else pure none
                  else pure none
              | _ => .exn .valueError
            else pure none
          match r3 with
          | some t => pure t
          | none => do
            let r4 : Option Ternary ←
              if x.head = some Sym.Log then
                match x.args with
                | some [arg] => do
                    let va ← Brain.is_real fuel inf arg
                    if va.truthy then do
                      let vp ← Brain.is_positive fuel inf arg
                      if vp.truthy then pure (some Ternary.yes) else pure none
                    else pure none
                | _ => .exn .valueError
              else pure none
            match r4 with
            | some t => pure t
            | none => do
              let r5 : Option Ternary ←
                if x.head = some Sym.Pow then
                  match x.args with
                  | some [base, exp] => do
                      let vb ← Brain.is_real fuel inf base
                      if vb.truthy then do
                        let ve ← Brain.is_real fuel inf exp
                        if ve.truthy then do
                          let line1 : Bool ← do
                            let pb ← Brain.is_positive fuel inf base
                            if pb.truthy then do
                              let pe ← Brain.is_positive fuel inf exp
                              pure pe.truthy
                            else pure false
                          if line1 then pure (some Ternary.yes)
                          else do
                            let line2 : Bool ← do
                              let nz ← Brain.is_not_zero fuel inf base
                              if nz.truthy then do
                                let ie ← Brain.is_integer fuel inf exp
                                pure ie.truthy
                              else pure false
                            if line2 then pure (some Ternary.yes)
                            else do
                              let line3 : Bool ← do
                                let ie ← Brain.is_integer fuel inf exp
                                if ie.truthy then do
                                  let ne ← Brain.is_nonnegative fuel inf exp
                                  pure ne.truthy
                                else pure false
                              if line3 then pure (some Ternary.yes)
                              else pure none
                        else pure none
                      else pure none
                  | _ => .exn .valueError
                else pure none
              match r5 with
              | some t => pure t
              | none =>
                match encl x with
                | some v =>
                    if v.imagIsZero then pure .yes
                    else if v.imagNeZero then pure .no
                    else do
                      let vinf ← Brain.is_infinity fuel inf x
                      if vinf.truthy ∨ x = Sym.Undefined then pure .no
                      else pure .unknown
                | none => do
                    let vinf ← Brain.is_infinity fuel inf x
                    if vinf.truthy ∨ x = Sym.Undefined then pure .no
                    else pure .unknown

/-- `Brain.is_complex` (brain.py lines 743-775). -/
def Brain.is_complex (fuel : Nat) (inf : List Expr) (x : Expr) : Res Ternary :=
  match fuel with
  | 0 => .spin
  | fuel + 1 => do
    let vre ← Brain.is_real fuel inf x
    if vre.truthy then pure .yes
    else if x = Sym.ConstI then pure .yes
    else if Sym.Element.app2 x Sym.CC ∈ inf then pure .yes
    else if Sym.NotElement.app2 x Sym.CC ∈ inf then pure .no
    else do
      let r1 : Option Ternary ←
        if x.head = some Sym.Pos ∨ x.head = some Sym.Neg ∨
            x.head = some Sym.Add ∨ x.head = some Sym.Sub ∨
            x.head = some Sym.Mul ∨ x.head = some Sym.Sqrt ∨
            x.head = some Sym.Exp ∨ x.head = some Sym.Sin ∨
            x.head = some Sym.Cos then do
          let b ← allBoolRes (fun arg => do
              let v ← Brain.is_complex fuel inf arg
              pure v.truthy) (x.args.getD [])
          if b then pure (some Ternary.yes) else pure none
        else pure none
      match r1 with
      | some t => pure t
      | none => do
        let r2 : Option Ternary ←
          if x.head = some Sym.Div then
            match x.args with
            | some [p, q] => do
                let vp ← Brain.is_complex fuel inf p
                if vp.truthy then do
                  let vq ← Brain.is_complex fuel inf q
                  if vq.truthy then do
                    let nz ← Brain.is_not_zero fuel inf q
                    if nz.truthy then pure (some Ternary.yes) else pure none
                  else pure none
                else pure none
            | _ => .exn .valueError
          else pure none
        match r2 with
        | some t => pure t
        | none => do
          let r3 : Option Ternary ←
            if x.head = some Sym.Pow then
              match x.args with
              | some [base, exp] => do
                  let vb ← Brain.is_complex fuel inf base
                  if vb.truthy then do
                    let ve ← Brain.is_complex fuel inf exp
                    if ve.truthy then do
                      let nz ← Brain.is_not_zero fuel inf base
                      if nz.truthy then pure (some Ternary.yes)
                      else do
                        let re ← Brain.is_real fuel inf exp
                        if re.truthy then do
                          let pe ← Brain.is_positive fuel inf exp
                          if pe.truthy then pure (some Ternary.yes) else pure none
                        else pure none
                    else pure none
                  else pure none
              | _ => .exn .valueError
            else pure none
          match r3 with
          | some t => pure t
          | none => do
            let r4 : Option Ternary ←
              if x.head = some Sym.Log then
                match x.args with
                | some [arg] => do
                    let va ← Brain.is_complex fuel inf arg
                    if va.truthy then do
                      let nz ← Brain.is_not_zero fuel inf arg
                      if nz.truthy then pure (some Ternary.yes) else pure none
                    else pure none
                | _ => .exn .valueError
              else pure none
            match r4 with
            | some t => pure t
            | none => do
              let vinf ← Brain.is_infinity fuel inf x
              if vinf.truthy ∨ x = Sym.Undefined then pure .no
              else pure .unknown

/-- `Brain.is_extended_real` (brain.py lines 889-899). -/
def Brain.is_extended_real (fuel : Nat) (inf : List Expr) (x : Expr) : Res Ternary :=
  match fuel with
  | 0 => .spin
  | fuel + 1 =>
    if x = Sym.Infinity then .ok .yes
    else if x = Sym.Neg.app1 Sym.Infinity then .ok .yes
    else do
      let v ← Brain.is_real fuel inf x
      if v.truthy then pure .yes
      else if v = .no then do
        let c ← Brain.is_complex fuel inf x
        if c.truthy then pure .no else pure .unknown
      else pure .unknown

end

/-- `Brain.evaluate_alg_or_None` (brain.py lines 1543-1547): run the
backend's exact evaluation and catch `ValueError` and
`NotImplementedError` as `None`.  The exact evaluator `evaluate_alg`
builds entirely on the external algebraic backend; it is supplied as the
parameter `evalAlg`, reading the current global budgets. -/
def Brain.evaluate_alg_or_None (evalAlg : Int → Int → Expr → Res AlgV)
    (x : Expr) : M (Option AlgV) := fun s =>
  match evalAlg s.degree_limit s.bits_limit x with
  | .ok v => .ok (some v) s
  | .exn .valueError => .ok none s
  | .exn .notImplementedError => .ok none s
  | .exn e => .exn e s
  | .spin => .spin

/-- The enclosure exclusion test of `Brain.equal` (brain.py lines
793-808): non-overlapping enclosures, or an `a - b` enclosure away from
zero, decide inequality. -/
def Brain.equal_excl (a b : Expr) : Option (Res Ternary) :=
  match encl a with
  | some val1 =>
      match encl b with
      | some val2 =>
          if !val1.overlaps val2 then some (.ok .no)
          else
            match encl (Sym.Sub.app2 a b) with
            | some val3 =>
                if !val3.containsZero then some (.ok .no) else none
            | none => some (.exn .attributeError)
      | none => none
  | none => none

/-- The `try` body of `Brain.equal`'s exact algebraic test (brain.py
lines 812-824): widen the budgets, evaluate both sides exactly, compare
when both succeed. -/
def Brain.equal_exact (evalAlg : Int → Int → Expr → Res AlgV)
    (a b : Expr) : M (Option Ternary) := do
  M.alg_set_degree_limit 200
  M.alg_set_bits_limit 100000
  let val1 ← Brain.evaluate_alg_or_None evalAlg a
  match val1 with
  | some v1 => do
      let val2 ← Brain.evaluate_alg_or_None evalAlg b
      match val2 with
      | some v2 => pure (some (Ternary.ofBool (v1 = v2)))
      | none => pure none
  | none => pure none

/-- The domain-exclusion heuristics at the tail of `Brain.equal`
(brain.py lines 830-855): decided rationality, integrality, complexity,
reality or infiniteness on exactly one side refutes equality. -/
def Brain.equal_domains (fuel : Nat) (inf : List Expr) (a b : Expr) :
    Res Ternary := do
  let aq ← Brain.is_rational encl fuel inf a
  let bq ← Brain.is_rational encl fuel inf b
  if aq ≠ .unknown ∧ bq ≠ .unknown ∧ aq ≠ bq then pure Ternary.no
  else do
    let fallthrough1 : Option Ternary ←
      if aq.truthy ∧ bq.truthy then do
        let aq2 ← Brain.is_integer encl fuel inf a
        let bq2 ← Brain.is_integer encl fuel inf b
        if aq2 ≠ .unknown ∧ bq2 ≠ .unknown ∧ aq2 ≠ bq2 then
          pure (some Ternary.no)
        else pure none
      else pure none
    match fallthrough1 with
    | some t => pure t
    | none => do
      let ac ← Brain.is_complex encl fuel inf a
      let bc ← Brain.is_complex encl fuel inf b
      if ac ≠ .unknown ∧ bc ≠ .unknown ∧ ac ≠ bc then pure Ternary.no
      else do
        let fallthrough2 : Option Ternary ←
          if ac.truthy ∧ bc.truthy then do
            let ar ← Brain.is_real encl fuel inf a
            let br ← Brain.is_real encl fuel inf b
            if ar ≠ .unknown ∧ br ≠ .unknown ∧ ar ≠ br then
              pure (some Ternary.no)
            else pure none
          else pure none
        match fallthrough2 with
        | some t => pure t
        | none => do
          let ai ← Brain.is_infinity encl fuel inf a
          let bi ← Brain.is_infinity encl fuel inf b
          if ai ≠ .unknown ∧ bi ≠ .unknown ∧ ai ≠ bi then pure Ternary.no
          else pure Ternary.unknown

/-- The `try/finally` block and its fall-through of `Brain.equal`
(brain.py lines 810-855): run the exact test, restore the budgets on
both normal and exceptional exit (an out-of-fuel `spin` is divergence:
control never reaches the `finally`), then fall through to the
domain-exclusion heuristics when the exact test was inconclusive. -/
def Brain.equal_try (evalAlg : Int → Int → Expr → Res AlgV)
    (fuel : Nat) (inf : List Expr) (a b : Expr) (st : St) : SRes Ternary :=
  let restore (s : St) : St :=
    { s with degree_limit := st.degree_limit, bits_limit := st.bits_limit }
  let afterTry : SRes (Option Ternary) :=
    match Brain.equal_exact evalAlg a b st with
    | .ok r s2 => .ok r (restore s2)
    | .exn e s2 => .exn e (restore s2)
    | .spin => .spin
  match afterTry with
  | .exn e s2 => .exn e s2
  | .spin => .spin
  | .ok (some t) s2 => .ok t s2
  | .ok none s2 => M.lift (Brain.equal_domains encl fuel inf a b) s2

/-- `Brain.equal` (brain.py lines 778-855): syntactic identity, distinct
integer literals, fact-set lookup, the enclosure exclusion test, the
exact algebraic test under a temporarily widened and `finally`-restored
degree/bit budget, and the domain-exclusion heuristics. -/
def Brain.equal (evalAlg : Int → Int → Expr → Res AlgV)
    (fuel : Nat) (inf : List Expr) (a b : Expr) : M Ternary :=
  if a = b then pure .yes
  else if a.is_integer ∧ b.is_integer then pure .no
  else if Sym.Equal.app2 a b ∈ inf then pure .yes
  else if Sym.Equal.app2 b a ∈ inf then pure .yes
  else if Sym.NotEqual.app2 a b ∈ inf then pure .no
  else if Sym.NotEqual.app2 b a ∈ inf then pure .no
  else
    match Brain.equal_excl encl a b with
    | some (.ok t) => pure t
    | some (.exn e) => M.raise e
    | some .spin => M.spin
    | none => Brain.equal_try encl evalAlg fuel inf a b

end PureCluster

/-!
Helpers for the stateful cluster: Python `range`, ordered-dictionary
updates, the stable sort used by `simple_Add`/`simple_Mul`, generic lazy
monadic folds, and the pure pattern-matching recursion of
`Brain.match`.
-/

/-- `range(a, b + 1)`: the integers `a, a+1, ..., b` (empty when
`b < a`). -/
def intRange (a b : Int) : List Int :=
  (List.range (b + 1 - a).toNat).map (fun i => a + (i : Int))

/-- `set.add`: insert a fact if not already present (position is
irrelevant, only membership is ever consulted). -/
def addInf (l : List Expr) (e : Expr) : List Expr :=
  if e ∈ l then l else l ++ [e]

/-- Python-dict update `d[k] += c` / `d[k] = c` for the coefficient map
of `simple_Add`: an existing key keeps its position (insertion order),
a new key is appended. -/
def assocUpdateAdd : List (Expr × Coeff) → Expr → Coeff → List (Expr × Coeff)
  | [], t, c => [(t, c)]
  | (t', c') :: rest, t, c =>
      if t' = t then (t', c'.add c) :: rest
      else (t', c') :: assocUpdateAdd rest t c

/-- Python-dict update `d[k] += e` / `d[k] = e` for the exponent map of
`simple_Mul`; `+=` on `Expr` values builds `Add(old, e)`
(`Expr.__add__`, expr.py lines 202-203). -/
def assocUpdateAddExpr : List (Expr × Expr) → Expr → Expr → List (Expr × Expr)
  | [], b, e => [(b, e)]
  | (b', e') :: rest, b, e =>
      if b' = b then (b', Sym.Add.app2 e' e) :: rest
      else (b', e') :: assocUpdateAddExpr rest b e

/-- Python-dict assignment `d[k] = v`: overwrite in place, append when
new. -/
def assocSet : List (Expr × Expr) → Expr → Expr → List (Expr × Expr)
  | [], k, v => [(k, v)]
  | (k', v') :: rest, k, v =>
      if k' = k then (k, v) :: rest
      else (k', v') :: assocSet rest k v

/-- `self.match_db[lhs_head].add(eid)` / `self.match_db[lhs_head] =
set([eid])` (brain.py lines 3705-3708): ids form a set, modelled as a
duplicate-free list in insertion order. -/
def matchDbAdd : List (Option Expr × List String) → Option Expr → String →
    List (Option Expr × List String)
  | [], k, id => [(k, [id])]
  | (k', ids) :: rest, k, id =>
      if k' = k then (k', if id ∈ ids then ids else ids ++ [id]) :: rest
      else (k', ids) :: matchDbAdd rest k id

/-- Accumulator pass of `dedupKeepFirst`. -/
def dedupKeepFirstAux {α : Type} [DecidableEq α] (seen : List α) :
    List α → List α
  | [] => []
  | x :: xs =>
      if x ∈ seen then dedupKeepFirstAux seen xs
      else x :: dedupKeepFirstAux (seen ++ [x]) xs

/-- Deduplication keeping the first occurrence (models building a Python
`set` and iterating it; the hash iteration order of a Python set is
modelled as the insertion order). -/
def dedupKeepFirst {α : Type} [DecidableEq α] (l : List α) : List α :=
  dedupKeepFirstAux [] l

/-- Stable insertion into a sorted list: a new element goes after all
existing elements whose key is not strictly greater. -/
def insertStable {α : Type} (lt : α → α → Bool) (x : α) : List α → List α
  | [] => [x]
  | y :: ys => if lt x y then x :: y :: ys else y :: insertStable lt x ys

/-- Stable sort (Python's `sorted`): elements are inserted in list
order, equal keys keep their relative order. -/
def pySorted {α : Type} (lt : α → α → Bool) (l : List α) : List α :=
  l.foldl (fun acc x => insertStable lt x acc) []

/-- Strict lexicographic comparison of the sort key
`(bool, int, str)` used by `simple_Add` and for the numerator factors of
`simple_Mul` (Python tuple comparison; `False < True`; strings compare
lexicographically by code point). -/
def keyLtB (a b : Bool × Int × String) : Bool :=
  (a.1 = false ∧ b.1 = true) ∨
    (a.1 = b.1 ∧ (a.2.1 < b.2.1 ∨ (a.2.1 = b.2.1 ∧ a.2.2 < b.2.2)))

/-- Strict lexicographic comparison of the denominator sort key of
`simple_Mul`, whose first component is the raw ternary `is_real` value.
The encoding is `False ↦ 0`, `True ↦ 1`, `None ↦ 2`; in Python,
comparing `None` with a bool would raise `TypeError`, so the encoding is
only exercised when all the first components are booleans or the list
has at most one element. -/
def keyLtT (a b : Nat × Int × String) : Bool :=
  a.1 < b.1 ∨
    (a.1 = b.1 ∧ (a.2.1 < b.2.1 ∨ (a.2.1 = b.2.1 ∧ a.2.2 < b.2.2)))

/-- Encoding of a raw ternary sort-key component (see `keyLtT`). -/
def Ternary.keyRank : Ternary → Nat
  | .no => 0
  | .yes => 1
  | .unknown => 2

/-- The exact integer value of the Python float literal `1e100`
(`simple_Sqrt` guards its perfect-square detection with `v < 1e100`;
the comparison of a Python int with a float is exact). -/
def float1e100 : Nat :=
  10000000000000000159028911097599180468360808563945281389781327557747838772170381060813469985856815104

/-- Lazy Python `all(...)` over stateful truthiness tests. -/
def allTruthyM {α : Type} (f : α → M Ternary) : List α → M Bool
  | [] => pure true
  | x :: xs => do
      let v ← f x
      if v.truthy then allTruthyM f xs else pure false

/-- Inner loop of `pairwiseAnyNo`: scan `x` against each later element. -/
def pairwiseAnyNoInner (f : Expr → Expr → M Ternary) (x : Expr) :
    List Expr → M Bool
  | [] => pure false
  | y :: ys => do
      let v ← f x y
      if v = .no then pure true else pairwiseAnyNoInner f x ys

/-- The ordered pairwise scan of `simple_Equal`/`simple_NotEqual`
(brain.py lines 1087-1092): report whether some pair `(args[i], args[j])`
with `i < j` tests `False`, stopping at the first such pair. -/
def pairwiseAnyNo (f : Expr → Expr → M Ternary) : List Expr → M Bool
  | [] => pure false
  | x :: rest => do
      let hit ← pairwiseAnyNoInner f x rest
      if hit then pure true else pairwiseAnyNo f rest

mutual

/-- The inner `match_recursive` of `Brain.match` (brain.py lines
3585-3602): a rule-declared free variable captures the subterm on first
occurrence and must equal prior captures on repeats; otherwise heads,
arities and children must match exactly; mismatches raise `ValueError`.
The capture map is threaded in insertion order. -/
def Brain.match_recursive (fv : List Expr) (mv : List (Expr × Expr))
    (expr : Expr) (rule : Expr) : Res (List (Expr × Expr)) :=
  if rule ∈ fv then
    match (mv.lookup rule : Option Expr) with
    | some prev => if expr ≠ prev then .exn .valueError else .ok mv
    | none => .ok (mv ++ [(rule, expr)])
  else if expr = rule then .ok mv
  else
    match rule, expr with
    | .App rh rargs, .App eh eargs =>
        if eh ≠ rh ∨ eargs.length ≠ rargs.length then .exn .valueError
        else Brain.match_recursiveList fv mv eargs rargs
    | _, _ => .exn .valueError

/-- `for a, b in zip(expr_args, rule_args): match_recursive(a, b)`. -/
def Brain.match_recursiveList (fv : List Expr) (mv : List (Expr × Expr)) :
    List Expr → List Expr → Res (List (Expr × Expr))
  | _, [] => .ok mv
  | [], _ :: _ => .ok mv
  | a :: as, b :: bs => do
      let mv' ← Brain.match_recursive fv mv a b
      Brain.match_recursiveList fv mv' as bs

end

/-- The non-`Union` body of `infer_not_domain` (brain.py lines 122-146).
The `Union` case of the source recurses over `head_args_flattened(Union)`,
whose elements never have head `Union`, so the recursion is one level
deep and is unfolded in `Brain.infer_not_domain` below. -/
def Brain.infer_not_domain_core (inferences : List Expr) (x dom : Expr) :
    List Expr :=
  let inf := addInf inferences (Sym.NotElement.app2 x dom)
  let inf :=
    if dom.head = some Sym.Set ∧ (dom.args.getD []).length = 1 then
      addInf inf (Sym.NotEqual.app2 x ((dom.args.getD []).headD dom))
    else inf
  if dom = Sym.CC then
    [Sym.RR, Sym.QQ, Sym.ZZ, Sym.PP, Sym.HH, Sym.AlgebraicNumbers].foldl
      (fun l d => addInf l (Sym.NotElement.app2 x d)) inf
  else if dom = Sym.RR then
    [Sym.QQ, Sym.ZZ, Sym.PP].foldl
      (fun l d => addInf l (Sym.NotElement.app2 x d)) inf
  else if dom = Sym.QQ then
    [Sym.ZZ, Sym.PP].foldl
      (fun l d => addInf l (Sym.NotElement.app2 x d)) inf
  else if dom = Sym.ZZ then
    addInf inf (Sym.NotElement.app2 x Sym.PP)
  else if dom = Sym.AlgebraicNumbers then
    [Sym.QQ, Sym.ZZ].foldl
      (fun l d => addInf l (Sym.NotElement.app2 x d)) inf
  else inf

/-- `infer_not_domain` (brain.py lines 117-146). -/
def Brain.infer_not_domain (inferences : List Expr) (x dom : Expr) :
    List Expr :=
  if dom.head = some Sym.Union then
    (dom.head_args_flattened Sym.Union).foldl
      (fun l d => Brain.infer_not_domain_core l x d) inferences
  else Brain.infer_not_domain_core inferences x dom

/-- `entries_dict[id]`.  Modelled from the spec: the formula corpus
module maps entry ids to entries; here it is the first corpus entry
carrying the id. -/
def entries_dict_lookup (entries : List Expr) (id : String) : Option Expr :=
  entries.find? (fun e => e.entry_id = some id)

/-- `min(exprs, key=lambda v: self.complexity(v[0]))` over the rule-match
candidates (brain.py line 3743): the first candidate of minimal
complexity in iteration order. -/
def fungrimMin (penalty : List (Expr × Int)) (c0 : Expr × String) :
    List (Expr × String) → Expr × String :=
  fun crest => crest.foldl (fun acc c =>
    if Brain.complexity penalty c.1 < Brain.complexity penalty acc.1 then c
    else acc) c0

/-- The context of a freshly constructed `Brain()` with no variables, no
assumptions and no penalty map, as built by `Expr.simple()`
(expr.py lines 938-944). -/
def emptyCtx : Ctx :=
  { inf := [], penalty := [], exprDb := [], matchDb := [], entries := [],
    fb := false }

/-- The names of the `simple_XXX` operator handlers of `Brain`
(brain.py lines 1023-3492) that lie outside the embedded fragment,
together with `cache` (the attribute `simple_cache` also answers
`hasattr(self, "simple_" + s)`).  Dispatching to one of these yields
`spin`: the embedding cannot decide such traces, and no theorem below
depends on one. -/
def unmodeledHandlers : List String :=
  ["Div", "Pow", "Exp", "Sin", "Cos", "Abs", "Re", "Im", "Arg", "Floor",
   "Ceil", "DirichletCharacter", "Zeros", "Det", "Spectrum",
   "SingularValues", "Where", "RiemannZeta", "Cases", "AiryAi", "AiryBi",
   "Erf", "Erfc", "HurwitzZeta", "DigammaFunction", "Gamma", "Factorial",
   "RisingFactorial", "Hypergeometric0F1", "Hypergeometric0F1Regularized",
   "Hypergeometric1F1", "Hypergeometric1F1Regularized",
   "Hypergeometric2F1", "Hypergeometric2F1Regularized",
   "HypergeometricPFQ", "HypergeometricPFQRegularized", "ModularJ",
   "DedekindEtaEpsilon", "ModularLambda", "DedekindEta", "EllipticK",
   "EllipticE", "hypergeometric", "hypergeometric_2", "Exp_two_pi_i_k_n",
   "cache"]

section StatefulCluster

variable (encl : Expr → Option CB) (renc : Expr → Option RB)
variable (evalAlg : Int → Int → Expr → Res AlgV) (fsqrt : Nat → Nat)

mutual

/-- `Brain.simple` (brain.py lines 343-378): fact-set membership as
literal `True_` short-circuits; atoms return themselves; an in-progress
cache entry returns the input unsimplified; otherwise the head symbol is
dispatched to its `simple_XXX` handler (default: simplify all children
and rebuild) and the result is cached. -/
def Brain.simple (fuel : Nat) (ctx : Ctx) (expr : Expr) : M Expr :=
  match fuel with
  | 0 => M.spin
  | fuel + 1 =>
    if expr ∈ ctx.inf then pure Sym.True_
    else if expr.is_atom then pure expr
    else do
      let c ← M.cacheGet expr
      match c with
      | some none => pure expr
      | some (some v) => pure v
      | none => do
          M.cacheSet expr none
          let bodyComp : M Expr :=
            match expr.head with
            | some (.Symbol s) => do
                let r ← Brain.run_handler fuel ctx s (expr.args.getD [])
                match r with
                | some v => pure v
                | none => do
                    let args ← (expr.args.getD []).mapM (Brain.sSimple fuel ctx)
                    pure (.App (.Symbol s) args)
            | _ => pure expr
          let result ← bodyComp
          M.cacheSet expr (some result)
          pure result

/-- `FungrimBrain.simple` (brain.py lines 3710-3764): like
`Brain.simple`, but every node is matched against the knowledge base
(when the ground-term table is nonempty) before its operator handler
runs and again after the handler changed it, and a node whose head has
no handler is returned without simplifying its children a second
time. -/
def FungrimBrain.simple (fuel : Nat) (ctx : Ctx) (expr : Expr) : M Expr :=
  match fuel with
  | 0 => M.spin
  | fuel + 1 =>
    if expr ∈ ctx.inf then pure Sym.True_
    else if expr.is_atom then pure expr
    else do
      let c ← M.cacheGet expr
      match c with
      | some none => pure expr
      | some (some v) => pure v
      | none => do
          M.cacheSet expr none
          let expr1 ←
            if ctx.exprDb ≠ [] then FungrimBrain.fungrim_simplify fuel ctx expr
            else pure expr
          let expr2 ←
            match expr1.head with
            | some (.Symbol s) => do
                let r ← Brain.run_handler fuel ctx s (expr1.args.getD [])
                match r with
                | some v =>
                    if ctx.exprDb ≠ [] ∧ v ≠ expr1 then
                      FungrimBrain.fungrim_simplify fuel ctx v
                    else pure v
                | none => pure expr1
            | _ => pure expr1
          M.cacheSet expr (some expr2)
          pure expr2

/-- The inner `fungrim_simplify` of `FungrimBrain.simple` (brain.py
lines 3731-3746): a hit in the ground-term table substitutes the
recorded cheaper equivalent; otherwise the node is rebuilt with
simplified children; if its head is rule-indexed, each indexed rule is
matched non-recursively and the minimum-complexity candidate replaces
the node only when strictly cheaper, re-simplified. -/
def FungrimBrain.fungrim_simplify (fuel : Nat) (ctx : Ctx) (expr : Expr) :
    M Expr :=
  match fuel with
  | 0 => M.spin
  | fuel + 1 =>
    match (ctx.exprDb.lookup expr : Option Expr) with
    | some v => pure v
    | none =>
      if expr.is_atom then pure expr
      else
        match expr with
        | .App head args0 => do
            let args ← args0.mapM (Brain.sSimple fuel ctx)
            let expr1 := Expr.App head args
            match (ctx.matchDb.lookup (some head) : Option (List String)) with
            | some ids => do
                let cands ← ids.mapM (fun id => do
                    let e2 ← Brain.rewrite_fungrim fuel ctx expr1 id false
                    pure (e2, id))
                let cands := dedupKeepFirst cands
                match cands with
                | [] => M.raise .valueError
                | c0 :: crest =>
                    let best := fungrimMin ctx.penalty c0 crest
                    if best.1 ≠ expr1 ∧
                        Brain.complexity ctx.penalty best.1 <
                          Brain.complexity ctx.penalty expr1 then
                      Brain.sSimple fuel ctx best.1
                    else pure expr1
            | none => pure expr1
        | _ => pure expr

/-- The dynamic `self.simple` call of every handler: Python dispatches
it to `FungrimBrain.simple` when the session is a `FungrimBrain`. -/
def Brain.sSimple (fuel : Nat) (ctx : Ctx) (expr : Expr) : M Expr :=
  match fuel with
  | 0 => M.spin
  | fuel + 1 =>
    if ctx.fb then FungrimBrain.simple fuel ctx expr
    else Brain.simple fuel ctx expr

/-- `hasattr(self, "simple_" + s)` dispatch (brain.py lines 364-370):
`some` runs the embedded handler (a `TypeError` models calling a
fixed-arity handler with the wrong number of arguments); `none` means no
handler exists in the source; a head whose source handler lies outside
the embedded fragment yields `spin`. -/
def Brain.run_handler (fuel : Nat) (ctx : Ctx) (s : String)
    (args : List Expr) : M (Option Expr) :=
  match fuel with
  | 0 => M.spin
  | fuel + 1 =>
    if s = "Not" then
      match args with
      | [x] => some <$> Brain.simple_Not fuel ctx x
      | _ => M.raise .typeError
    else if s = "And" then some <$> Brain.simple_And fuel ctx args
    else if s = "Or" then some <$> Brain.simple_Or fuel ctx args
    else if s = "Implies" then some <$> Brain.simple_Implies fuel ctx args
    else if s = "Equal" then some <$> Brain.simple_Equal fuel ctx args
    else if s = "NotEqual" then some <$> Brain.simple_NotEqual fuel ctx args
    else if s = "Element" then some <$> Brain.simple_Element fuel ctx args
    else if s = "NotElement" then some <$> Brain.simple_NotElement fuel ctx args
    else if s = "LessEqual" then some <$> Brain.simple_LessEqual fuel ctx args
    else if s = "Less" then some <$> Brain.simple_Less fuel ctx args
    else if s = "GreaterEqual" then
      some <$> Brain.simple_GreaterEqual fuel ctx args
    else if s = "Greater" then some <$> Brain.simple_Greater fuel ctx args
    else if s = "Pos" then
      match args with
      | [x] => some <$> Brain.sSimple fuel ctx x
      | _ => M.raise .typeError
    else if s = "Parentheses" then
      match args with
      | [x] => some <$> Brain.sSimple fuel ctx x
      | _ => M.raise .typeError
    else if s = "Brackets" then
      match args with
      | [x] => some <$> Brain.sSimple fuel ctx x
      | _ => M.raise .typeError
    else if s = "Braces" then
      match args with
      | [x] => some <$> Brain.sSimple fuel ctx x
      | _ => M.raise .typeError
    else if s = "Neg" then
      match args with
      | [x] => some <$> Brain.simple_Neg fuel ctx x
      | _ => M.raise .typeError
    else if s = "Add" then some <$> Brain.simple_Add fuel ctx args
    else if s = "Sub" then
      match args with
      | [x, y] => some <$> Brain.simple_Sub fuel ctx x y
      | _ => M.raise .typeError
    else if s = "Mul" then some <$> Brain.simple_Mul fuel ctx args
    else if s = "Sqrt" then
      match args with
      | [x] => some <$> Brain.simple_Sqrt fuel ctx x
      | _ => M.raise .typeError
    else if s = "Sum" then some <$> Brain.simple_Sum fuel ctx args
    else if s ∈ unmodeledHandlers then M.spin
    else pure none

/-- `Brain.simple_Not` (brain.py lines 1023-1040). -/
def Brain.simple_Not (fuel : Nat) (ctx : Ctx) (x0 : Expr) : M Expr :=
  match fuel with
  | 0 => M.spin
  | fuel + 1 => do
    let x ← Brain.sSimple fuel ctx x0
    if x = Sym.True_ then pure Sym.False_
    else if x = Sym.False_ then pure Sym.True_
    else if x.head = some Sym.NotEqual ∧ (x.args.getD []).length = 2 then
      pure (.App Sym.Equal (x.args.getD []))
    else if x.head = some Sym.Equal ∧ (x.args.getD []).length = 2 then
      pure (.App Sym.NotEqual (x.args.getD []))
    else if x.head = some Sym.NotElement ∧ (x.args.getD []).length = 2 then
      pure (.App Sym.Element (x.args.getD []))
    else if x.head = some Sym.Element ∧ (x.args.getD []).length = 2 then
      pure (.App Sym.NotElement (x.args.getD []))
    else pure (Sym.Not.app1 x)

/-- `Brain.simple_And` (brain.py lines 1042-1054). -/
def Brain.simple_And (fuel : Nat) (ctx : Ctx) (args0 : List Expr) : M Expr :=
  match fuel with
  | 0 => M.spin
  | fuel + 1 => do
    let args ← args0.mapM (Brain.sSimple fuel ctx)
    if Sym.False_ ∈ args then pure Sym.False_
    else
      let args := args.filter (· ≠ Sym.True_)
      match args with
      | [] => pure Sym.True_
      | [a] => pure a
      | _ => pure (.App Sym.And args)

/-- `Brain.simple_Or` (brain.py lines 1056-1068). -/
def Brain.simple_Or (fuel : Nat) (ctx : Ctx) (args0 : List Expr) : M Expr :=
  match fuel with
  | 0 => M.spin
  | fuel + 1 => do
    let args ← args0.mapM (Brain.sSimple fuel ctx)
    if Sym.True_ ∈ args then pure Sym.True_
    else
      let args := args.filter (· ≠ Sym.False_)
      match args with
      | [] => pure Sym.False_
      | [a] => pure a
      | _ => pure (.App Sym.Or args)

/-- `Brain.simple_Implies` (brain.py lines 1070-1078). -/
def Brain.simple_Implies (fuel : Nat) (ctx : Ctx) (args0 : List Expr) :
    M Expr :=
  match fuel with
  | 0 => M.spin
  | fuel + 1 => do
    let args ← args0.mapM (Brain.sSimple fuel ctx)
    match args with
    | [p, q] =>
        if p = Sym.False_ then pure Sym.True_
        else if p = Sym.True_ then pure q
        else pure (.App Sym.Implies args)
    | _ => M.raise .assertionError

/-- `Brain.simple_Equal` (brain.py lines 1080-1094). -/
def Brain.simple_Equal (fuel : Nat) (ctx : Ctx) (args0 : List Expr) :
    M Expr :=
  match fuel with
  | 0 => M.spin
  | fuel + 1 => do
    let args ← args0.mapM (Brain.sSimple fuel ctx)
    if args.length < 2 then M.raise .assertionError
    else do
      let a0 := args.headD Sym.True_
      let allEq ← allTruthyM
        (fun arg => Brain.equal encl evalAlg fuel ctx.inf a0 arg) args.tail
      if allEq then pure Sym.True_
      else do
        let anyNo ← pairwiseAnyNo
          (fun a b => Brain.equal encl evalAlg fuel ctx.inf a b) args
        if anyNo then pure Sym.False_
        else pure (.App Sym.Equal args)

/-- `Brain.simple_NotEqual` (brain.py lines 1096-1111). -/
def Brain.simple_NotEqual (fuel : Nat) (ctx : Ctx) (args0 : List Expr) :
    M Expr :=
  match fuel with
  | 0 => M.spin
  | fuel + 1 => do
    let args ← args0.mapM (Brain.sSimple fuel ctx)
    if args.length ≠ 2 then pure (.App Sym.NotEqual args)
    else do
      let a0 := args.headD Sym.True_
      let allEq ← allTruthyM
        (fun arg => Brain.equal encl evalAlg fuel ctx.inf a0 arg) args.tail
      if allEq then pure Sym.False_
      else do
        let anyNo ← pairwiseAnyNo
          (fun a b => Brain.equal encl evalAlg fuel ctx.inf a b) args
        if anyNo then pure Sym.True_
        else pure (.App Sym.NotEqual args)

/-- `Brain.simple_Element` (brain.py lines 1113-1128). -/
def Brain.simple_Element (fuel : Nat) (ctx : Ctx) (args0 : List Expr) :
    M Expr :=
  match fuel with
  | 0 => M.spin
  | fuel + 1 => do
    let args ← args0.mapM (Brain.sSimple fuel ctx)
    match args with
    | [x, S] => do
        let v ← Brain.element fuel ctx x S
        match v with
        | .yes => pure Sym.True_
        | .no => pure Sym.False_
        | .unknown => pure (.App Sym.Element args)
    | _ => M.raise .assertionError

/-- `Brain.simple_NotElement` (brain.py lines 1130-1145). -/
def Brain.simple_NotElement (fuel : Nat) (ctx : Ctx) (args0 : List Expr) :
    M Expr :=
  match fuel with
  | 0 => M.spin
  | fuel + 1 => do
    let args ← args0.mapM (Brain.sSimple fuel ctx)
    match args with
    | [x, S] => do
        let v ← Brain.element fuel ctx x S
        match v with
        | .yes => pure Sym.False_
        | .no => pure Sym.True_
        | .unknown => pure (.App Sym.NotElement args)
    | _ => M.raise .assertionError

/-- `Brain.simple_LessEqual` (brain.py lines 1147-1176). -/
def Brain.simple_LessEqual (fuel : Nat) (ctx : Ctx) (args0 : List Expr) :
    M Expr :=
  match fuel with
  | 0 => M.spin
  | fuel + 1 => do
    let args ← args0.mapM (Brain.sSimple fuel ctx)
    match args with
    | [a, b] =>
        match a.toInt, b.toInt with
        | some va, some vb =>
            if va ≤ vb then pure Sym.True_ else pure Sym.False_
        | _, _ => do
            let r1 : Option Expr ← do
              let ra ← M.lift (Brain.is_real encl fuel ctx.inf a)
              if ra.truthy then do
                let rb ← M.lift (Brain.is_real encl fuel ctx.inf b)
                if rb.truthy then
                  match renc (Sym.Sub.app2 a b) with
                  | some v =>
                      if v.le_zero then pure (some Sym.True_)
                      else if v.gt_zero then pure (some Sym.False_)
                      else pure none
                  | none => pure none
                else pure none
              else pure none
            match r1 with
            | some r => pure r
            | none => do
              let r2 : Option Expr ← do
                let ea ← M.lift (Brain.is_extended_real encl fuel ctx.inf a)
                if ea.truthy then do
                  let eb ← M.lift (Brain.is_extended_real encl fuel ctx.inf b)
                  if eb.truthy then do
                    let q ← Brain.equal encl evalAlg fuel ctx.inf a b
                    if q.truthy then pure (some Sym.True_)
                    else if a = Sym.Neg.app1 Sym.Infinity then
                      pure (some Sym.True_)
                    else if b = Sym.Infinity then pure (some Sym.True_)
                    else do
                      let c1 ← M.lift (Brain.is_real encl fuel ctx.inf a)
                      if c1.truthy ∧ b = Sym.Neg.app1 Sym.Infinity then
                        pure (some Sym.False_)
                      else do
                        let c2 ← M.lift (Brain.is_real encl fuel ctx.inf b)
                        if c2.truthy ∧ a = Sym.Infinity then
                          pure (some Sym.False_)
                        else if a = Sym.Infinity ∧
                            b = Sym.Neg.app1 Sym.Infinity then
                          pure (some Sym.False_)
                        else pure none
                  else pure none
                else pure none
              match r2 with
              | some r => pure r
              | none => pure (.App Sym.LessEqual args)
    | _ => pure (.App Sym.LessEqual args)

/-- `Brain.simple_Less` (brain.py lines 1178-1207). -/
def Brain.simple_Less (fuel : Nat) (ctx : Ctx) (args0 : List Expr) : M Expr :=
  match fuel with
  | 0 => M.spin
  | fuel + 1 => do
    let args ← args0.mapM (Brain.sSimple fuel ctx)
    match args with
    | [a, b] =>
        match a.toInt, b.toInt with
        | some va, some vb =>
            if va < vb then pure Sym.True_ else pure Sym.False_
        | _, _ => do
            let r1 : Option Expr ← do
              let ra ← M.lift (Brain.is_real encl fuel ctx.inf a)
              if ra.truthy then do
                let rb ← M.lift (Brain.is_real encl fuel ctx.inf b)
                if rb.truthy then
                  match renc (Sym.Sub.app2 a b) with
                  | some v =>
                      if v.lt_zero then pure (some Sym.True_)
                      else if v.ge_zero then pure (some Sym.False_)
                      else pure none
                  | none => pure none
                else pure none
              else pure none
            match r1 with
            | some r => pure r
            | none => do
              let r2 : Option Expr ← do
                let ea ← M.lift (Brain.is_extended_real encl fuel ctx.inf a)
                if ea.truthy then do
                  let eb ← M.lift (Brain.is_extended_real encl fuel ctx.inf b)
                  if eb.truthy then do
                    let q ← Brain.equal encl evalAlg fuel ctx.inf a b
                    if q.truthy then pure (some Sym.False_)
                    else if a = Sym.Neg.app1 Sym.Infinity then do
                      let rb2 ← M.lift (Brain.is_real encl fuel ctx.inf b)
                      if rb2.truthy then pure (some Sym.True_)
                      else if b = Sym.Infinity then pure (some Sym.True_)
                      else do
                        Brain.lessTail fuel ctx a b
                    else do
                      Brain.lessTail fuel ctx a b
                  else pure none
                else pure none
              match r2 with
              | some r => pure r
              | none => pure (.App Sym.Less args)
    | _ => pure (.App Sym.Less args)

/-- The last four comparisons of the extended-real block of
`simple_Less` (brain.py lines 1201-1206), shared by the two paths on
which the `a == -Infinity` tests did not decide. -/
def Brain.lessTail (fuel : Nat) (ctx : Ctx) (a b : Expr) :
    M (Option Expr) :=
  match fuel with
  | 0 => M.spin
  | fuel + 1 => do
    let ra ← M.lift (Brain.is_real encl fuel ctx.inf a)
    if ra.truthy ∧ b = Sym.Infinity then pure (some Sym.True_)
    else if a = Sym.Infinity then pure (some Sym.False_)
    else if b = Sym.Neg.app1 Sym.Infinity then pure (some Sym.False_)
    else pure none

/-- `Brain.simple_GreaterEqual` (brain.py lines 1209-1238). -/
def Brain.simple_GreaterEqual (fuel : Nat) (ctx : Ctx) (args0 : List Expr) :
    M Expr :=
  match fuel with
  | 0 => M.spin
  | fuel + 1 => do
    let args ← args0.mapM (Brain.sSimple fuel ctx)
    match args with
    | [a, b] =>
        match a.toInt, b.toInt with
        | some va, some vb =>
            if va ≥ vb then pure Sym.True_ else pure Sym.False_
        | _, _ => do
            let r1 : Option Expr ← do
              let ra ← M.lift (Brain.is_real encl fuel ctx.inf a)
              if ra.truthy then do
                let rb ← M.lift (Brain.is_real encl fuel ctx.inf b)
                if rb.truthy then
                  match renc (Sym.Sub.app2 a b) with
                  | some v =>
                      if v.ge_zero then pure (some Sym.True_)
                      else if v.lt_zero then pure (some Sym.False_)
                      else pure none
                  | none => pure none
                else pure none
              else pure none
            match r1 with
            | some r => pure r
            | none => do
              let r2 : Option Expr ← do
                let ea ← M.lift (Brain.is_extended_real encl fuel ctx.inf a)
                if ea.truthy then do
                  let eb ← M.lift (Brain.is_extended_real encl fuel ctx.inf b)
                  if eb.truthy then do
                    let q ← Brain.equal encl evalAlg fuel ctx.inf a b
                    if q.truthy then pure (some Sym.True_)
                    else if b = Sym.Neg.app1 Sym.Infinity then
                      pure (some Sym.True_)
                    else if a = Sym.Infinity then pure (some Sym.True_)
                    else do
                      let c1 ← M.lift (Brain.is_real encl fuel ctx.inf b)
                      if c1.truthy ∧ a = Sym.Neg.app1 Sym.Infinity then
                        pure (some Sym.False_)
                      else do
                        let c2 ← M.lift (Brain.is_real encl fuel ctx.inf a)
                        if c2.truthy ∧ b = Sym.Infinity then
                          pure (some Sym.False_)
                        else if b = Sym.Infinity ∧
                            a = Sym.Neg.app1 Sym.Infinity then
                          pure (some Sym.False_)
                        else pure none
                  else pure none
                else pure none
              match r2 with
              | some r => pure r
              | none => pure (.App Sym.GreaterEqual args)
    | _ => pure (.App Sym.GreaterEqual args)

/-- `Brain.simple_Greater` (brain.py lines 1240-1269). -/
def Brain.simple_Greater (fuel : Nat) (ctx : Ctx) (args0 : List Expr) :
    M Expr :=
  match fuel with
  | 0 => M.spin
  | fuel + 1 => do
    let args ← args0.mapM (Brain.sSimple fuel ctx)
    match args with
    | [a, b] =>
        match a.toInt, b.toInt with
        | some va, some vb =>
            if va > vb then pure Sym.True_ else pure Sym.False_
        | _, _ => do
            let r1 : Option Expr ← do
              let ra ← M.lift (Brain.is_real encl fuel ctx.inf a)
              if ra.truthy then do
                let rb ← M.lift (Brain.is_real encl fuel ctx.inf b)
                if rb.truthy then
                  match renc (Sym.Sub.app2 a b) with
                  | some v =>
                      if v.gt_zero then pure (some Sym.True_)
                      else if v.le_zero then pure (some Sym.False_)
                      else pure none
                  | none => pure none
                else pure none
              else pure none
            match r1 with
            | some r => pure r
            | none => do
              let r2 : Option Expr ← do
                let ea ← M.lift (Brain.is_extended_real encl fuel ctx.inf a)
                if ea.truthy then do
                  let eb ← M.lift (Brain.is_extended_real encl fuel ctx.inf b)
                  if eb.truthy then do
                    let q ← Brain.equal encl evalAlg fuel ctx.inf a b
                    if q.truthy then pure (some Sym.False_)
                    else if b = Sym.Neg.app1 Sym.Infinity then do
                      let ra2 ← M.lift (Brain.is_real encl fuel ctx.inf a)
                      if ra2.truthy then pure (some Sym.True_)
                      else if a = Sym.Infinity then pure (some Sym.True_)
                      else do
                        Brain.greaterTail fuel ctx a b
                    else do
                      Brain.greaterTail fuel ctx a b
                  else pure none
                else pure none
              match r2 with
              | some r => pure r
              | none => pure (.App Sym.Greater args)
    | _ => pure (.App Sym.Greater args)

/-- The last four comparisons of the extended-real block of
`simple_Greater` (brain.py lines 1263-1268). -/
def Brain.greaterTail (fuel : Nat) (ctx : Ctx) (a b : Expr) :
    M (Option Expr) :=
  match fuel with
  | 0 => M.spin
  | fuel + 1 => do
    let rb ← M.lift (Brain.is_real encl fuel ctx.inf b)
    if rb.truthy ∧ a = Sym.Infinity then pure (some Sym.True_)
    else if b = Sym.Infinity then pure (some Sym.False_)
    else if a = Sym.Neg.app1 Sym.Infinity then pure (some Sym.False_)
    else pure none

/-- `Brain.simple_Neg` (brain.py lines 1283-1294). -/
def Brain.simple_Neg (fuel : Nat) (ctx : Ctx) (x0 : Expr) : M Expr :=
  match fuel with
  | 0 => M.spin
  | fuel + 1 => do
    let x ← Brain.sSimple fuel ctx x0
    if x.head = some Sym.Neg then
      match x.args with
      | some [v] => pure v
      | _ => M.raise .valueError
    else if x.head = some Sym.Sub then
      match x.args with
      | some [a, b] => pure (Sym.Sub.app2 b a)
      | _ => M.raise .valueError
    else
      match x.toInt with
      | some v => pure (.Integer (-v))
      | none => pure (Sym.Neg.app1 x)

/-- `Brain.simple_Sqrt` (brain.py lines 2147-2180).  The float-based
square-root subroutine `int(round(v ** 0.5))` is the parameter `fsqrt`;
the guard `v < 1e100` compares the integer with the exact value of the
float literal. -/
def Brain.simple_Sqrt (fuel : Nat) (ctx : Ctx) (x0 : Expr) : M Expr :=
  match fuel with
  | 0 => M.spin
  | fuel + 1 => do
    let x ← Brain.sSimple fuel ctx x0
    if x = Expr.Integer 0 ∨ x = Expr.Integer 1 ∨ x = Sym.Infinity ∨
        x = Sym.UnsignedInfinity ∨ x = Sym.Undefined then pure x
    else if x = Expr.Integer (-1) then pure Sym.ConstI
    else if x = Sym.Neg.app1 Sym.Infinity then
      pure (Sym.Mul.app2 Sym.ConstI Sym.Infinity)
    else do
      let sq : Option Expr :=
        match x.toInt with
        | some v =>
            let real := v ≥ 0
            let va := v.natAbs
            if va < float1e100 then
              let r := fsqrt va
              if r * r = va then
                some (if real then Expr.Integer (r : Int)
                  else Sym.Mul.app2 (.Integer (r : Int)) Sym.ConstI)
              else none
            else none
        | none => none
      match sq with
      | some result => pure result
      | none => do
          let neg ← M.lift (Brain.is_negative encl fuel ctx.inf x)
          if neg.truthy then do
            let inner ← Brain.simple_Sqrt fuel ctx (Sym.Neg.app1 x)
            pure (Sym.Mul.app2 inner Sym.ConstI)
          else do
            let pw : Option (M Expr) :=
              if x.head = some Sym.Pow then
                match x.args with
                | some [base, exp] =>
                    match exp.toInt with
                    | some e =>
                        if e.emod 2 = 0 ∧ e > 0 then
                          some (do
                            let re ← M.lift (Brain.is_real encl fuel ctx.inf base)
                            if re.truthy then do
                              let nn ← M.lift
                                (Brain.is_nonnegative encl fuel ctx.inf base)
                              if nn.truthy then
                                if e = 2 then pure base
                                else pure (Sym.Pow.app2 base (.Integer (e / 2)))
                              else pure (Sym.Sqrt.app1 x)
                            else pure (Sym.Sqrt.app1 x))
                        else none
                    | none => none
                | _ => some (M.raise .valueError)
              else none
            match pw with
            | some m => m
            | none => pure (Sym.Sqrt.app1 x)

/-- `Brain.simple_Sum` (brain.py lines 2453-2481): a `Sum` over an
integer `For`-range unrolls to the simplified `Add` of the substituted
terms when `b - a < 100`; with a condition, each instance must simplify
to a literal truth value, otherwise the original `Sum` is returned. -/
def Brain.simple_Sum (fuel : Nat) (ctx : Ctx) (args : List Expr) : M Expr :=
  match fuel with
  | 0 => M.spin
  | fuel + 1 =>
    let core (expr forargs cond : Expr) : M Expr :=
      if forargs.head = some Sym.For ∧ (forargs.args.getD []).length = 3 then
        match forargs.args with
        | some [var, a0, b0] => do
            let a ← Brain.sSimple fuel ctx a0
            let b ← Brain.sSimple fuel ctx b0
            match a.toInt, b.toInt with
            | some ia, some ib =>
                if ib - ia < 100 then
                  if cond = Sym.True_ then
                    let terms := (intRange ia ib).map
                      (fun i => expr.replace [(var, .Integer i)])
                    Brain.sSimple fuel ctx (.App Sym.Add terms)
                  else do
                    let r ← Brain.sum_cond_loop fuel ctx expr var cond
                      (intRange ia ib)
                    match r with
                    | some terms => Brain.sSimple fuel ctx (.App Sym.Add terms)
                    | none => pure (.App Sym.Sum args)
                else pure (.App Sym.Sum args)
            | _, _ => pure (.App Sym.Sum args)
        | _ => pure (.App Sym.Sum args)
      else pure (.App Sym.Sum args)
    match args with
    | [expr, forargs] => core expr forargs Sym.True_
    | [expr, forargs, cond] => core expr forargs cond
    | _ => pure (.App Sym.Sum args)

/-- The conditional term collection of `simple_Sum` (brain.py lines
2471-2479): `none` signals an undecided condition instance, making the
caller return the unevaluated `Sum`. -/
def Brain.sum_cond_loop (fuel : Nat) (ctx : Ctx) (expr var cond : Expr) :
    List Int → M (Option (List Expr))
  | is =>
    match fuel with
    | 0 => M.spin
    | fuel + 1 =>
      match is with
      | [] => pure (some [])
      | i :: rest => do
          let include_ ← Brain.sSimple fuel ctx
            (cond.replace [(var, .Integer i)])
          if include_ = Sym.True_ then do
            let r ← Brain.sum_cond_loop fuel ctx expr var cond rest
            match r with
            | some l => pure (some (expr.replace [(var, .Integer i)] :: l))
            | none => pure none
          else if include_ = Sym.False_ then
            Brain.sum_cond_loop fuel ctx expr var cond rest
          else pure none

/-- `Brain.simple_Add` (brain.py lines 1791-1893): flatten into
coefficient-monomial pairs, accumulate exact rational coefficients per
distinct monomial in insertion order, drop zero terms, render
coefficients, sort deterministically and collapse a trailing negation
into `Sub`. -/
def Brain.simple_Add (fuel : Nat) (ctx : Ctx) (terms0 : List Expr) : M Expr :=
  match fuel with
  | 0 => M.spin
  | fuel + 1 =>
    match terms0 with
    | [] => pure (.Integer 0)
    | [t] => Brain.sSimple fuel ctx t
    | _ => do
      let terms ← terms0.mapM (Brain.sSimple fuel ctx)
      let allc ← M.lift (allBoolRes (fun t => do
          let v ← Brain.is_complex encl fuel ctx.inf t
          pure v.truthy) terms)
      if !allc then pure (.App Sym.Add terms)
      else do
        let constant_term : Coeff := .z 0
        let tc ← Brain.iter_term_coeff fuel ctx terms
        let term_coeff := tc.foldl (fun m p => assocUpdateAdd m p.1 p.2) []
        let rendered ← term_coeff.foldlM
          (fun (acc : List Expr) (p : Expr × Coeff) => do
            let t := p.1
            let c := p.2
            if c.eqInt 0 then pure acc
            else if c.eqInt 1 then pure (acc ++ [t])
            else if c.eqInt (-1) then
              if t = Expr.Integer 1 then pure (acc ++ [Expr.Integer (-1)])
              else pure (acc ++ [Sym.Neg.app1 t])
            else
              if c.isFmpq then
                if (c.toQ.den : Int) = 1 then do
                  let m ← Brain.simple_Mul fuel ctx [t, .Integer c.toQ.num]
                  pure (acc ++ [m])
                else do
                  let m ← Brain.simple_Mul fuel ctx
                    [t, Sym.Div.app2 (.Integer c.toQ.num)
                      (.Integer (c.toQ.den : Int))]
                  pure (acc ++ [m])
              else do
                let m ← Brain.simple_Mul fuel ctx [t, .Integer c.toQ.num]
                pure (acc ++ [m])) []
        let keyed ← rendered.mapM (fun t => do
            let vre ← M.lift (Brain.is_real encl fuel ctx.inf t)
            pure ((vre.falsy, Brain.complexity ctx.penalty t, t.str), t))
        let sortedTerms :=
          (pySorted (fun a b => keyLtB a.1 b.1) keyed).map (·.2)
        let terms2 :=
          if (constant_term.eqInt 0) = false then
            Expr.Integer constant_term.toQ.num :: sortedTerms
          else sortedTerms
        match terms2 with
        | [] => pure (.Integer 0)
        | [t] => pure t
        | [t1, t2] =>
            if t2.head = some Sym.Neg then
              match t2.args with
              | some [x] => pure (Sym.Sub.app2 t1 x)
              | _ => M.raise .valueError
            else pure (.App Sym.Add [t1, t2])
        | _ => pure (.App Sym.Add terms2)

/-- The generator `iter_term_coeff` of `simple_Add` (brain.py lines
1806-1849), collected in yield order. -/
def Brain.iter_term_coeff (fuel : Nat) (ctx : Ctx) :
    List Expr → M (List (Expr × Coeff))
  | terms =>
    match fuel with
    | 0 => M.spin
    | fuel + 1 =>
      match terms with
      | [] => pure []
      | x :: rest => do
          let first ←
            match x.toInt with
            | some n => pure [(Expr.Integer 1, Coeff.z n)]
            | none =>
              if x.head = some Sym.Add then
                Brain.iter_term_coeff fuel ctx (x.args.getD [])
              else if x.head = some Sym.Sub then
                match x.args with
                | some [a, b] => do
                    let l1 ← Brain.iter_term_coeff fuel ctx [a]
                    let l2 ← Brain.iter_term_coeff fuel ctx [b]
                    pure (l1 ++ l2.map (fun p => (p.1, p.2.neg)))
                | _ => M.raise .valueError
              else if x.head = some Sym.Neg then
                match x.args with
                | some [a] => do
                    let l ← Brain.iter_term_coeff fuel ctx [a]
                    pure (l.map (fun p => (p.1, p.2.neg)))
                | _ => M.raise .valueError
              else if x.head = some Sym.Mul then
                let factors := x.args.getD []
                if factors.length ≥ 2 then do
                  let v : Option ℚ ← (fun s =>
                    match Brain.evaluate_fmpq fuel ctx (factors.headD x) s with
                    | .ok q s' => .ok (some q) s'
                    | .exn .notImplementedError s' => .ok none s'
                    | .exn e s' => .exn e s'
                    | .spin => .spin)
                  match v with
                  | none => pure [(x, Coeff.z 1)]
                  | some q => do
                      let red ← Brain.simple_Mul fuel ctx factors.tail
                      let l ← Brain.iter_term_coeff fuel ctx [red]
                      pure (l.map (fun p => (p.1, p.2.mul (Coeff.q q))))
                else pure [(x, Coeff.z 1)]
              else if x.head = some Sym.Div then
                match x.args with
                | some [p, qe] =>
                    match qe.toInt with
                    | some qn => do
                        let l ← Brain.iter_term_coeff fuel ctx [p]
                        l.mapM (fun pr => do
                          let c' ← M.lift (pr.2.divQ (qn : ℚ))
                          pure (pr.1, c'))
                    | none => pure [(x, Coeff.z 1)]
                | _ => M.raise .valueError
              else pure [(x, Coeff.z 1)]
          let more ← Brain.iter_term_coeff fuel ctx rest
          pure (first ++ more)

/-- `Brain.evaluate_fmpq` (brain.py lines 1320-1347): exact rational
evaluation of a closed arithmetic term; unsupported shapes raise
`NotImplementedError`, division by zero raises `ZeroDivisionError` as
flint does. -/
def Brain.evaluate_fmpq (fuel : Nat) (ctx : Ctx) (x : Expr) : M ℚ :=
  match fuel with
  | 0 => M.spin
  | fuel + 1 =>
    match x.toInt with
    | some n => pure ((n : ℚ))
    | none =>
      if x.head = some Sym.Neg then
        match x.args with
        | some [a] => do
            let q ← Brain.evaluate_fmpq fuel ctx a
            pure (-q)
        | _ => M.raise .valueError
      else if x.head = some Sym.Sub then
        match x.args with
        | some [a, b] => do
            let qa ← Brain.evaluate_fmpq fuel ctx a
            let qb ← Brain.evaluate_fmpq fuel ctx b
            pure (qa - qb)
        | _ => M.raise .valueError
      else if x.head = some Sym.Add then
        (x.args.getD []).foldlM (fun (s : ℚ) a => do
            let qa ← Brain.evaluate_fmpq fuel ctx a
            pure (s + qa)) 0
      else if x.head = some Sym.Mul then
        (x.args.getD []).foldlM (fun (s : ℚ) a => do
            let qa ← Brain.evaluate_fmpq fuel ctx a
            pure (s * qa)) 1
      else if x.head = some Sym.Div then
        match x.args with
        | some [a, b] => do
            let qa ← Brain.evaluate_fmpq fuel ctx a
            let qb ← Brain.evaluate_fmpq fuel ctx b
            if qb = 0 then M.raise .zeroDivisionError
            else pure (qa / qb)
        | _ => M.raise .valueError
      else if x.head = some Sym.Pow then
        match x.args with
        | some [a, b] => do
            let y ← Brain.sSimple fuel ctx b
            match y.toInt with
            | some n => do
                let qa ← Brain.evaluate_fmpq fuel ctx a
                if qa = 0 ∧ n < 0 then M.raise .zeroDivisionError
                else pure (qa ^ n)
            | none => M.raise .notImplementedError
        | _ => M.raise .valueError
      else M.raise .notImplementedError

/-- `Brain.simple_Mul` (brain.py lines 1918-2045): flatten into
base-exponent pairs, fold small integer powers into an exact rational
prefactor, merge exponents of equal bases, render, sort and assemble a
`Div(num, den)` when a denominator group exists. -/
def Brain.simple_Mul (fuel : Nat) (ctx : Ctx) (factors0 : List Expr) :
    M Expr :=
  match fuel with
  | 0 => M.spin
  | fuel + 1 =>
    match factors0 with
    | [] => pure (.Integer 1)
    | [x] => Brain.sSimple fuel ctx x
    | _ => do
      let factors ← factors0.mapM (Brain.sSimple fuel ctx)
      let allc ← M.lift (allBoolRes (fun t => do
          let v ← Brain.is_complex encl fuel ctx.inf t
          pure v.truthy) factors)
      if !allc then pure (.App Sym.Mul factors)
      else if (Expr.Integer 0) ∈ factors then pure (.Integer 0)
      else do
        let be ← Brain.iter_base_exp fuel ctx factors
        let acc ← M.lift (be.foldlM
          (fun (st : Coeff × List (Expr × Expr)) (p : Expr × Expr) =>
            match p.1.toInt, p.2.toInt with
            | some bb, some ee =>
                if ((-2 : Int) ≤ ee ∧ ee ≤ 2) ∨ bb = -1 then
                  if bb = -1 then
                    if ee.emod 2 ≠ 0 then Res.ok (st.1.neg, st.2)
                    else Res.ok st
                  else if ee ≥ 0 then
                    Res.ok (st.1.mul (.z (bb ^ ee.toNat)), st.2)
                  else
                    match mkFmpq 1 (bb ^ (-ee).toNat) with
                    | .ok qv => Res.ok (st.1.mul (.q qv), st.2)
                    | .exn er => Res.exn er
                    | .spin => Res.spin
                else Res.ok (st.1, assocUpdateAddExpr st.2 p.1 p.2)
            | _, _ => Res.ok (st.1, assocUpdateAddExpr st.2 p.1 p.2))
          ((Coeff.z 1), []))
        let prefactor := acc.1
        let fd ← acc.2.foldlM
          (fun (st : List Expr × List Expr) (p : Expr × Expr) => do
            let b := p.1
            let e ← Brain.sSimple fuel ctx p.2
            if b = Sym.ConstE then
              if e = Expr.Integer 0 then pure st
              else if e = Expr.Integer 1 then pure (st.1 ++ [b], st.2)
              else pure (st.1 ++ [Sym.Exp.app1 e], st.2)
            else
              match e.toInt with
              | some n =>
                  if n = 0 then pure st
                  else if n = 1 then pure (st.1 ++ [b], st.2)
                  else if n = -1 then pure (st.1, st.2 ++ [b])
                  else if n ≥ 2 then
                    pure (st.1 ++ [Sym.Pow.app2 b (.Integer n)], st.2)
                  else pure (st.1, st.2 ++ [Sym.Pow.app2 b (.Integer (-n))])
              | none =>
                  if e.head = some Sym.Neg then
                    match e.args with
                    | some [e1] => pure (st.1, st.2 ++ [Sym.Pow.app2 b e1])
                    | _ => M.raise .valueError
                  else if e = Sym.Div.app2 (.Integer 1) (.Integer 2) then
                    pure (st.1 ++ [Sym.Sqrt.app1 b], st.2)
                  else pure (st.1 ++ [Sym.Pow.app2 b e], st.2)) ([], [])
        let prefE : Expr := Expr.Integer prefactor.toQ.num
        let prefDenE : Expr :=
          if prefactor.isFmpq then Expr.Integer (prefactor.toQ.den : Int)
          else Expr.Integer 1
        let keyedNum ← fd.1.mapM (fun t => do
            let v ← M.lift (Brain.is_real encl fuel ctx.inf t)
            pure ((v.falsy, Brain.complexity ctx.penalty t, t.str), t))
        let numSorted := (pySorted (fun a b => keyLtB a.1 b.1) keyedNum).map (·.2)
        let keyedDen ← fd.2.mapM (fun t => do
            let v ← M.lift (Brain.is_real encl fuel ctx.inf t)
            pure ((v.keyRank, Brain.complexity ctx.penalty t, t.str), t))
        let denSorted := (pySorted (fun a b => keyLtT a.1 b.1) keyedDen).map (·.2)
        let numL := if prefE ≠ Expr.Integer 1 then prefE :: numSorted
          else numSorted
        let denL := if prefDenE ≠ Expr.Integer 1 then prefDenE :: denSorted
          else denSorted
        let num := match numL with
          | [] => Expr.Integer 1
          | [t] => t
          | l => Expr.App Sym.Mul l
        let den := match denL with
          | [] => Expr.Integer 1
          | [t] => t
          | l => Expr.App Sym.Mul l
        if den = Expr.Integer 1 then pure num
        else pure (Sym.Div.app2 num den)

/-- The generator `iter_base_exp` of `simple_Mul` (brain.py lines
1936-1968), collected in yield order. -/
def Brain.iter_base_exp (fuel : Nat) (ctx : Ctx) :
    List Expr → M (List (Expr × Expr))
  | factors =>
    match fuel with
    | 0 => M.spin
    | fuel + 1 =>
      match factors with
      | [] => pure []
      | x :: rest => do
          let first ←
            if x.head = some Sym.Mul then
              Brain.iter_base_exp fuel ctx (x.args.getD [])
            else if x.head = some Sym.Div then
              match x.args with
              | some [p, q] => do
                  let l1 ← Brain.iter_base_exp fuel ctx [p]
                  let l2 ← Brain.iter_base_exp fuel ctx [q]
                  let l2' ← l2.mapM (fun pr => do
                      let ne ← Brain.simple_Neg fuel ctx pr.2
                      pure (pr.1, ne))
                  pure (l1 ++ l2')
              | _ => M.raise .valueError
            else if x.head = some Sym.Exp then
              match x.args with
              | some [v] => pure [(Sym.ConstE, v)]
              | _ => M.raise .valueError
            else if x.head = some Sym.Pow then
              match x.args with
              | some [b, e] =>
                  if e.is_integer then do
                    let l ← Brain.iter_base_exp fuel ctx [b]
                    l.mapM (fun pr => do
                      let m ← Brain.simple_Mul fuel ctx [pr.2, e]
                      pure (pr.1, m))
                  else pure [(b, e)]
              | _ => M.raise .valueError
            else if x.head = some Sym.Sqrt then
              match x.args with
              | some [v] =>
                  pure [(v, Sym.Div.app2 (.Integer 1) (.Integer 2))]
              | _ => M.raise .valueError
            else if x.head = some Sym.Neg then
              match x.args with
              | some [v] => do
                  let l ← Brain.iter_base_exp fuel ctx [v]
                  pure ((Expr.Integer (-1), Expr.Integer 1) :: l)
              | _ => M.raise .valueError
            else pure [(x, Expr.Integer 1)]
          let more ← Brain.iter_base_exp fuel ctx rest
          pure (first ++ more)

/-- `Brain.simple_Sub` (brain.py lines 1895-1898). -/
def Brain.simple_Sub (fuel : Nat) (ctx : Ctx) (x y : Expr) : M Expr :=
  match fuel with
  | 0 => M.spin
  | fuel + 1 => do
    let cx ← M.lift (Brain.is_complex encl fuel ctx.inf x)
    let both : Bool ←
      if cx.truthy then do
        let cy ← M.lift (Brain.is_complex encl fuel ctx.inf y)
        pure cy.truthy
      else pure false
    if both then Brain.simple_Add fuel ctx [x, Sym.Neg.app1 y]
    else do
      let a ← Brain.sSimple fuel ctx x
      let b ← Brain.sSimple fuel ctx y
      pure (Sym.Sub.app2 a b)

/-- `Brain.element` (brain.py lines 901-1021): fact-set lookup, the
numeric-domain delegations, integrality-plus-order ranges, the four
interval kinds, literal `Set` membership via `equal`, and the
three-valued combination rules for `Union`, `Intersection` (whose
`assert len(S.args()) >= 1` raises on an empty intersection) and
`SetMinus` (whose `assert len(S.args()) == 2` raises on any other
arity). -/
def Brain.element (fuel : Nat) (ctx : Ctx) (x S : Expr) : M Ternary :=
  match fuel with
  | 0 => M.spin
  | fuel + 1 =>
    if Sym.Element.app2 x S ∈ ctx.inf then pure .yes
    else if Sym.NotElement.app2 x S ∈ ctx.inf then pure .no
    else if S = Sym.CC then M.lift (Brain.is_complex encl fuel ctx.inf x)
    else if S = Sym.RR then M.lift (Brain.is_real encl fuel ctx.inf x)
    else if S = Sym.QQ then M.lift (Brain.is_rational encl fuel ctx.inf x)
    else if S = Sym.ZZ then M.lift (Brain.is_integer encl fuel ctx.inf x)
    else if S = Sym.HH then do
      let c1 ← M.lift (Brain.is_complex encl fuel ctx.inf x)
      if c1.falsy then pure c1
      else M.lift (Brain.is_positive encl fuel ctx.inf (Sym.Im.app1 x))
    else if S = Sym.PP then do
      let z ← M.lift (Brain.is_integer encl fuel ctx.inf x)
      if z.falsy then pure z
      else
        match x.toInt with
        | some n =>
            if n ≤ 20 then
              pure (.ofBool (n ∈ ([2, 3, 5, 7, 11, 13, 17, 19] : List Int)))
            else pure .unknown
        | none => pure .unknown
    else if S = Sym.AlgebraicNumbers then Brain.is_algebraic fuel ctx x
    else
      match S.head with
      | some h =>
        if h = Sym.ZZGreaterEqual then
          match S.args with
          | some [a] => do
              let v ← M.lift (Brain.is_integer encl fuel ctx.inf x)
              if v.falsy then pure v
              else Brain.less_equal fuel ctx a x
          | _ => M.raise .valueError
        else if h = Sym.ZZLessEqual then
          match S.args with
          | some [b] => do
              let v ← M.lift (Brain.is_integer encl fuel ctx.inf x)
              if v.falsy then pure v
              else Brain.less_equal fuel ctx x b
          | _ => M.raise .valueError
        else if h = Sym.Range then
          match S.args with
          | some [a, b] => do
              let v ← M.lift (Brain.is_integer encl fuel ctx.inf x)
              if v.falsy then pure v
              else do
                let v2 ← Brain.less_equal fuel ctx a x
                if v2.falsy then pure v2
                else Brain.less_equal fuel ctx x b
          | _ => M.raise .valueError
        else if h = Sym.ClosedInterval ∨ h = Sym.OpenInterval ∨
            h = Sym.ClosedOpenInterval ∨ h = Sym.OpenClosedInterval then
          match S.args with
          | some [a, b] => do
              let va ← M.lift (Brain.is_extended_real encl fuel ctx.inf a)
              if va.falsy then pure .unknown
              else do
                let vb ← M.lift (Brain.is_extended_real encl fuel ctx.inf b)
                if vb.falsy then pure .unknown
                else do
                  let vx ← M.lift (Brain.is_extended_real encl fuel ctx.inf x)
                  if vx.falsy then pure vx
                  else if h ≠ Sym.ClosedInterval ∧ a = b then pure .no
                  else do
                    let v1 ←
                      if h = Sym.ClosedInterval ∨ h = Sym.ClosedOpenInterval
                      then Brain.less_equal fuel ctx a x
                      else Brain.less fuel ctx a x
                    if v1.falsy then pure v1
                    else
                      if h = Sym.ClosedInterval ∨ h = Sym.OpenClosedInterval
                      then Brain.less_equal fuel ctx x b
                      else Brain.less fuel ctx x b
          | _ => M.raise .valueError
        else if h = Sym.Set then do
          let check ← (S.args.getD []).mapM
            (fun y => Brain.equal encl evalAlg fuel ctx.inf x y)
          if Ternary.yes ∈ check then pure .yes
          else if check.all (· = .no) then pure .no
          else pure .unknown
        else if h = Sym.Union then
          if (S.args.getD []).length = 0 then pure .no
          else do
            let check ← (S.args.getD []).mapM
              (fun T => Brain.element fuel ctx x T)
            if Ternary.yes ∈ check then pure .yes
            else if check.all (· = .no) then pure .no
            else pure .unknown
        else if h = Sym.Intersection then
          if (S.args.getD []).length ≥ 1 then do
            let check ← (S.args.getD []).mapM
              (fun T => Brain.element fuel ctx x T)
            if check.all (· = .yes) then pure .yes
            else if Ternary.no ∈ check then pure .no
            else pure .unknown
          else M.raise .assertionError
        else if h = Sym.SetMinus then
          match S.args with
          | some [t, u] => do
              let v1 ← Brain.element fuel ctx x t
              if v1 = .no then pure .no
              else do
                let v2 ← Brain.element fuel ctx x u
                if v1 = .yes ∧ v2 = .no then pure .yes
                else if v1 = .yes ∧ v2 = .yes then pure .no
                else pure .unknown
          | _ => M.raise .assertionError
        else pure .unknown
      | none => pure .unknown

/-- `Brain.is_algebraic` (brain.py lines 640-692); stateful because the
`Exp` case simplifies `v / (Pi * ConstI)` and the `Pow`/`Log` cases call
`equal`. -/
def Brain.is_algebraic (fuel : Nat) (ctx : Ctx) (x : Expr) : M Ternary :=
  match fuel with
  | 0 => M.spin
  | fuel + 1 => do
    let vi ← M.lift (Brain.is_integer encl fuel ctx.inf x)
    if vi.truthy then pure .yes
    else if Sym.Element.app2 x Sym.AlgebraicNumbers ∈ ctx.inf then pure .yes
    else if Sym.NotElement.app2 x Sym.AlgebraicNumbers ∈ ctx.inf then pure .no
    else if x = Sym.Pi ∨ x = Sym.ConstE then pure .no
    else if x = Sym.ConstI ∨ x = Sym.GoldenRatio then pure .yes
    else do
      let r1 : Option Ternary ←
        if x.head = some Sym.Pos ∨ x.head = some Sym.Neg ∨
            x.head = some Sym.Add ∨ x.head = some Sym.Sub ∨
            x.head = some Sym.Mul then do
          let b ← allTruthyM (fun a => Brain.is_algebraic fuel ctx a)
            (x.args.getD [])
          if b then pure (some Ternary.yes) else pure none
        else pure none
      match r1 with
      | some t => pure t
      | none => do
        let r2 : Option Ternary ←
          if x.head = some Sym.Div then
            match x.args with
            | some [p, q] => do
                let vp ← Brain.is_algebraic fuel ctx p
                if vp.truthy then do
                  let vq ← Brain.is_algebraic fuel ctx q
                  if vq.truthy then do
                    let nz ← M.lift (Brain.is_not_zero encl fuel ctx.inf q)
                    if nz.truthy then pure (some Ternary.yes) else pure none
                  else pure none
                else pure none
            | _ => M.raise .valueError
          else pure none
        match r2 with
        | some t => pure t
        | none => do
          let r3 : Option Ternary ←
            if x.head = some Sym.Pow then
              match x.args with
              | some [base, exp] => do
                  let ab ← Brain.is_algebraic fuel ctx base
                  let inner : Option Ternary ←
                    if ab.truthy then do
                      let line1 : Bool ← do
                        let re ← M.lift (Brain.is_rational encl fuel ctx.inf exp)
                        if re.truthy then do
                          let nz ← M.lift
                            (Brain.is_not_zero encl fuel ctx.inf base)
                          if nz.truthy then pure true
                          else do
                            let nn ← M.lift
                              (Brain.is_nonnegative encl fuel ctx.inf exp)
                            pure nn.truthy
                        else pure false
                      if line1 then pure (some Ternary.yes)
                      else do
                        let gs : Bool ← do
                          let ae ← Brain.is_algebraic fuel ctx exp
                          if ae.truthy then do
                            let re2 ← M.lift
                              (Brain.is_rational encl fuel ctx.inf exp)
                            if re2 = .no then do
                              let nzb ← M.lift
                                (Brain.is_not_zero encl fuel ctx.inf base)
                              if nzb.truthy then do
                                let e1 ← Brain.equal encl evalAlg fuel
                                  ctx.inf base (Expr.Integer 1)
                                pure (decide (e1 = Ternary.no))
                              else pure false
                            else pure false
                          else pure false
                        if gs then pure (some Ternary.no) else pure none
                    else pure none
                  match inner with
                  | some t => pure (some t)
                  | none => do
                      let tr : Bool ← do
                        let cb ← M.lift (Brain.is_complex encl fuel ctx.inf base)
                        if cb.truthy then do
                          let ab2 ← Brain.is_algebraic fuel ctx base
                          if ab2 = .no then do
                            let re ← M.lift
                              (Brain.is_rational encl fuel ctx.inf exp)
                            if re.truthy then do
                              let nz ← M.lift
                                (Brain.is_not_zero encl fuel ctx.inf exp)
                              pure nz.truthy
                            else pure false
                          else pure false
                        else pure false
                      if tr then pure (some Ternary.no) else pure none
              | _ => M.raise .valueError
            else pure none
          match r3 with
          | some t => pure t
          | none =>
            if x.head = some Sym.Sqrt then
              match x.args with
              | some [v] => Brain.is_algebraic fuel ctx v
              | _ => M.raise .valueError
            else do
              let r5 : Option Ternary ←
                if x.head = some Sym.Exp then
                  match x.args with
                  | some [v] => do
                      let av ← Brain.is_algebraic fuel ctx v
                      let hit1 : Bool ←
                        if av.truthy then do
                          let nz ← M.lift (Brain.is_not_zero encl fuel ctx.inf v)
                          pure nz.truthy
                        else pure false
                      if hit1 then pure (some Ternary.no)
                      else do
                        let s ← Brain.sSimple fuel ctx
                          (Sym.Div.app2 v (Sym.Mul.app2 Sym.Pi Sym.ConstI))
                        let rq ← M.lift (Brain.is_rational encl fuel ctx.inf s)
                        if rq.truthy then pure (some Ternary.yes) else pure none
                  | _ => M.raise .valueError
                else pure none
              match r5 with
              | some t => pure t
              | none => do
                let r6 : Option Ternary ←
                  if x.head = some Sym.Sin ∨ x.head = some Sym.Cos ∨
                      x.head = some Sym.Tan ∨ x.head = some Sym.Cot ∨
                      x.head = some Sym.Csc ∨ x.head = some Sym.Sec then
                    match x.args with
                    | some [v] => do
                        let av ← Brain.is_algebraic fuel ctx v
                        let hit : Bool ←
                          if av.truthy then do
                            let nz ← M.lift
                              (Brain.is_not_zero encl fuel ctx.inf v)
                            pure nz.truthy
                          else pure false
                        if hit then pure (some Ternary.no) else pure none
                    | _ => M.raise .valueError
                  else pure none
                match r6 with
                | some t => pure t
                | none => do
                  let r7 : Option Ternary ←
                    if x.head = some Sym.Log then
                      match x.args with
                      | some [v] => do
                          let av ← Brain.is_algebraic fuel ctx v
                          let hit : Bool ←
                            if av.truthy then do
                              let e1 ← Brain.equal encl evalAlg fuel ctx.inf v
                                (Expr.Integer 1)
                              pure (decide (e1 = Ternary.no))
                            else pure false
                          if hit then pure (some Ternary.no) else pure none
                      | _ => M.raise .valueError
                    else pure none
                  match r7 with
                  | some t => pure t
                  | none => do
                    let vinf ← M.lift (Brain.is_infinity encl fuel ctx.inf x)
                    if vinf.truthy ∨ x = Sym.Undefined then pure .no
                    else pure .unknown

/-- `Brain.greater` (brain.py lines 857-863). -/
def Brain.greater (fuel : Nat) (ctx : Ctx) (a b : Expr) : M Ternary :=
  match fuel with
  | 0 => M.spin
  | fuel + 1 => do
    let v ← Brain.sSimple fuel ctx (Sym.Greater.app2 a b)
    if v = Sym.True_ then pure .yes
    else if v = Sym.False_ then pure .no
    else pure .unknown

/-- `Brain.less` (brain.py lines 865-871). -/
def Brain.less (fuel : Nat) (ctx : Ctx) (a b : Expr) : M Ternary :=
  match fuel with
  | 0 => M.spin
  | fuel + 1 => do
    let v ← Brain.sSimple fuel ctx (Sym.Less.app2 a b)
    if v = Sym.True_ then pure .yes
    else if v = Sym.False_ then pure .no
    else pure .unknown

/-- `Brain.greater_equal` (brain.py lines 873-879). -/
def Brain.greater_equal (fuel : Nat) (ctx : Ctx) (a b : Expr) : M Ternary :=
  match fuel with
  | 0 => M.spin
  | fuel + 1 => do
    let v ← Brain.sSimple fuel ctx (Sym.GreaterEqual.app2 a b)
    if v = Sym.True_ then pure .yes
    else if v = Sym.False_ then pure .no
    else pure .unknown

/-- `Brain.less_equal` (brain.py lines 881-887). -/
def Brain.less_equal (fuel : Nat) (ctx : Ctx) (a b : Expr) : M Ternary :=
  match fuel with
  | 0 => M.spin
  | fuel + 1 => do
    let v ← Brain.sSimple fuel ctx (Sym.LessEqual.app2 a b)
    if v = Sym.True_ then pure .yes
    else if v = Sym.False_ then pure .no
    else pure .unknown

/-- `Brain.match` (brain.py lines 3579-3621; `match` is a reserved word
in Lean): structural unification against the rule's left side, then the
instantiated assumption predicate must simplify to literal `True_`. -/
def Brain.matchExpr (fuel : Nat) (ctx : Ctx) (expr rule : Expr)
    (fv : List Expr) (assumptions0 : Option Expr) :
    M (Option (List (Expr × Expr))) :=
  match fuel with
  | 0 => M.spin
  | fuel + 1 =>
    let assumptions := assumptions0.getD Sym.True_
    match Brain.match_recursive fv [] expr rule with
    | .exn .valueError => pure none
    | .exn e => M.raise e
    | .spin => M.spin
    | .ok mv => do
        let a1 := assumptions.replace mv
        let a2 ← Brain.sSimple fuel ctx a1
        if a2 = Sym.True_ then pure (some mv) else pure none

/-- The inner `match_local` of `Brain.rewrite_fungrim` (brain.py lines
3644-3652): rewrite at the root when the rule matches, else recurse into
the arguments. -/
def Brain.match_local (fuel : Nat) (ctx : Ctx) (lhs rhs : Expr)
    (fv : List Expr) (assumptions : Expr) (expr : Expr) : M Expr :=
  match fuel with
  | 0 => M.spin
  | fuel + 1 => do
    let m ← Brain.matchExpr fuel ctx expr lhs fv (some assumptions)
    match m with
    | some mv => pure (rhs.replace mv)
    | none =>
        if expr.is_atom then pure expr
        else
          match expr with
          | .App h args => do
              let args' ← args.mapM
                (Brain.match_local fuel ctx lhs rhs fv assumptions)
              pure (.App h args')
          | _ => pure expr

/-- `Brain.rewrite_fungrim` (brain.py lines 3623-3660). -/
def Brain.rewrite_fungrim (fuel : Nat) (ctx : Ctx) (expr : Expr)
    (id : String) (recursive : Bool) : M Expr :=
  match fuel with
  | 0 => M.spin
  | fuel + 1 =>
    match entries_dict_lookup ctx.entries id with
    | none => M.raise .keyError
    | some entry => do
        let vars : List Expr :=
          match entry.get_arg_with_head Sym.Variables with
          | none => []
          | some v => v.args.getD []
        match entry.get_arg_with_head Sym.Formula with
        | none => M.raise .valueError
        | some formulaNode =>
          match formulaNode.args with
          | some (formula :: _) => do
              let assumptions ←
                match entry.get_arg_with_head Sym.Assumptions with
                | none => pure Sym.True_
                | some a =>
                    match a.args with
                    | some (a0 :: _) => pure a0
                    | _ => M.raise .indexError
              if formula.head ≠ some Sym.Equal ∨
                  (formula.args.getD []).length ≠ 2 then
                M.raise .valueError
              else
                match formula.args with
                | some [lhs, rhs] =>
                    if recursive then
                      Brain.match_local fuel ctx lhs rhs vars
                        assumptions expr
                    else do
                      let m ← Brain.matchExpr fuel ctx expr lhs vars
                        (some assumptions)
                      match m with
                      | some mv => pure (rhs.replace mv)
                      | none => pure expr
                | _ => M.raise .valueError
          | _ => M.raise .indexError

/-- `Expr.simple()` with no assumptions (expr.py lines 915-945), as
called inside `infer_domain`: a fresh default `Brain` with an empty
cache simplifies the expression; the process-wide algebraic budgets are
shared with the enclosing session. -/
def Expr.simpleDefault (fuel : Nat) (e : Expr) : M Expr :=
  match fuel with
  | 0 => M.spin
  | fuel + 1 => fun s =>
    match Brain.simple fuel emptyCtx e
        { cache := [], degree_limit := s.degree_limit,
          bits_limit := s.bits_limit } with
    | .ok v s' =>
        .ok v { s with degree_limit := s'.degree_limit,
                       bits_limit := s'.bits_limit }
    | .exn er s' =>
        .exn er { s with degree_limit := s'.degree_limit,
                         bits_limit := s'.bits_limit }
    | .spin => .spin

/-- The non-`Intersection` body of `infer_domain` (brain.py lines
153-251).  The `Intersection` case of the source recurses over
`head_args_flattened(Intersection)`, whose elements never have head
`Intersection`; `Brain.infer_domain` below unfolds that one level. -/
def Brain.infer_domain_core (fuel : Nat) (inf0 : List Expr) (x dom : Expr) :
    M (List Expr) :=
  match fuel with
  | 0 => M.spin
  | fuel + 1 =>
    let inf := addInf inf0 (Sym.Element.app2 x dom)
    let inf :=
      if dom.head = some Sym.Set ∧ (dom.args.getD []).length = 1 then
        addInf inf (Sym.Equal.app2 x ((dom.args.getD []).headD dom))
      else inf
    if dom = Sym.RR then pure (addInf inf (Sym.Element.app2 x Sym.CC))
    else if dom = Sym.QQ then
      pure ([Sym.RR, Sym.CC, Sym.AlgebraicNumbers].foldl
        (fun l d => addInf l (Sym.Element.app2 x d)) inf)
    else if dom = Sym.ZZ then
      pure ([Sym.QQ, Sym.RR, Sym.CC, Sym.AlgebraicNumbers].foldl
        (fun l d => addInf l (Sym.Element.app2 x d)) inf)
    else if dom = Sym.HH then pure (addInf inf (Sym.Element.app2 x Sym.CC))
    else if dom = Sym.PP then
      pure ([Sym.ZZGreaterEqual.app1 (.Integer 2),
             Sym.ClosedOpenInterval.app2 (.Integer 2) Sym.Infinity,
             Sym.ZZ, Sym.QQ, Sym.RR, Sym.CC, Sym.AlgebraicNumbers].foldl
        (fun l d => addInf l (Sym.Element.app2 x d)) inf)
    else if dom = Sym.AlgebraicNumbers then
      pure (addInf inf (Sym.Element.app2 x Sym.CC))
    else if dom.head = some Sym.ZZGreaterEqual ∨
        dom.head = some Sym.ZZLessEqual ∨ dom.head = some Sym.Range then
      pure ([Sym.ZZ, Sym.QQ, Sym.RR, Sym.CC, Sym.AlgebraicNumbers].foldl
        (fun l d => addInf l (Sym.Element.app2 x d)) inf)
    else if dom.head = some Sym.OpenInterval then do
      let inf := addInf (addInf inf (Sym.Element.app2 x Sym.RR))
        (Sym.Element.app2 x Sym.CC)
      match dom.args with
      | some [a, b] => do
          let inf := [Sym.Less.app2 a x, Sym.Less.app2 x b,
            Sym.Greater.app2 x a, Sym.Greater.app2 b x].foldl addInf inf
          ([-1, 0, 1] : List Int).foldlM (fun inf v => do
            let r ← Expr.simpleDefault fuel
              (Sym.GreaterEqual.app2 a (.Integer v))
            let inf :=
              if r = Sym.True_ then
                addInf (addInf inf (Sym.Greater.app2 x (.Integer v)))
                  (Sym.Less.app2 (.Integer v) x)
              else inf
            let r2 ← Expr.simpleDefault fuel
              (Sym.LessEqual.app2 b (.Integer v))
            if r2 = Sym.True_ then
              pure (addInf (addInf inf (Sym.Less.app2 x (.Integer v)))
                (Sym.Greater.app2 (.Integer v) x))
            else pure inf) inf
      | _ => M.raise .valueError
    else if dom.head = some Sym.ClosedInterval then
      match dom.args with
      | some [a, b] => do
          let inf := [Sym.LessEqual.app2 a x, Sym.LessEqual.app2 x b,
            Sym.GreaterEqual.app2 x a, Sym.GreaterEqual.app2 b x].foldl
              addInf inf
          let bothReal : Bool ← do
            let r1 ← Expr.simpleDefault fuel (Sym.Element.app2 a Sym.RR)
            if r1 = Sym.True_ then do
              let r2 ← Expr.simpleDefault fuel (Sym.Element.app2 b Sym.RR)
              pure (decide (r2 = Sym.True_))
            else pure false
          let inf :=
            if bothReal then
              addInf (addInf inf (Sym.Element.app2 x Sym.RR))
                (Sym.Element.app2 x Sym.CC)
            else inf
          ([-1, 0, 1] : List Int).foldlM (fun inf v => do
            let r ← Expr.simpleDefault fuel
              (Sym.GreaterEqual.app2 a (.Integer v))
            let inf :=
              if r = Sym.True_ then
                addInf (addInf inf (Sym.GreaterEqual.app2 x (.Integer v)))
                  (Sym.LessEqual.app2 (.Integer v) x)
              else inf
            let r2 ← Expr.simpleDefault fuel
              (Sym.LessEqual.app2 b (.Integer v))
            if r2 = Sym.True_ then
              pure (addInf (addInf inf (Sym.LessEqual.app2 x (.Integer v)))
                (Sym.GreaterEqual.app2 (.Integer v) x))
            else pure inf) inf
      | _ => M.raise .valueError
    else if dom.head = some Sym.OpenClosedInterval then
      match dom.args with
      | some [a, b] => do
          let inf := [Sym.Less.app2 a x, Sym.LessEqual.app2 x b,
            Sym.Greater.app2 x a, Sym.GreaterEqual.app2 b x].foldl addInf inf
          let bReal : Bool ← do
            let r ← Expr.simpleDefault fuel (Sym.Element.app2 b Sym.RR)
            pure (decide (r = Sym.True_))
          let inf :=
            if bReal then
              addInf (addInf inf (Sym.Element.app2 x Sym.RR))
                (Sym.Element.app2 x Sym.CC)
            else inf
          ([-1, 0, 1] : List Int).foldlM (fun inf v => do
            let r ← Expr.simpleDefault fuel
              (Sym.GreaterEqual.app2 a (.Integer v))
            let inf :=
              if r = Sym.True_ then
                addInf (addInf inf (Sym.Greater.app2 x (.Integer v)))
                  (Sym.Less.app2 (.Integer v) x)
              else inf
            let r2 ← Expr.simpleDefault fuel
              (Sym.LessEqual.app2 b (.Integer v))
            if r2 = Sym.True_ then
              pure (addInf (addInf inf (Sym.LessEqual.app2 x (.Integer v)))
                (Sym.GreaterEqual.app2 (.Integer v) x))
            else pure inf) inf
      | _ => M.raise .valueError
    else if dom.head = some Sym.ClosedOpenInterval then
      match dom.args with
      | some [a, b] => do
          let inf := [Sym.LessEqual.app2 a x, Sym.Less.app2 x b,
            Sym.GreaterEqual.app2 x a, Sym.Greater.app2 b x].foldl addInf inf
          let aReal : Bool ← do
            let r ← Expr.simpleDefault fuel (Sym.Element.app2 a Sym.RR)
            pure (decide (r = Sym.True_))
          let inf :=
            if aReal then
              addInf (addInf inf (Sym.Element.app2 x Sym.RR))
                (Sym.Element.app2 x Sym.CC)
            else inf
          ([-1, 0, 1] : List Int).foldlM (fun inf v => do
            let r ← Expr.simpleDefault fuel
              (Sym.GreaterEqual.app2 a (.Integer v))
            let inf :=
              if r = Sym.True_ then
                addInf (addInf inf (Sym.GreaterEqual.app2 x (.Integer v)))
                  (Sym.LessEqual.app2 (.Integer v) x)
              else inf
            let r2 ← Expr.simpleDefault fuel
              (Sym.LessEqual.app2 b (.Integer v))
            if r2 = Sym.True_ then
              pure (addInf (addInf inf (Sym.Less.app2 x (.Integer v)))
                (Sym.Greater.app2 (.Integer v) x))
            else pure inf) inf
      | _ => M.raise .valueError
    else pure inf

/-- `infer_domain` (brain.py lines 148-251). -/
def Brain.infer_domain (fuel : Nat) (inf : List Expr) (x dom : Expr) :
    M (List Expr) :=
  match fuel with
  | 0 => M.spin
  | fuel + 1 =>
    if dom.head = some Sym.Intersection then
      (dom.head_args_flattened Sym.Intersection).foldlM
        (fun l d => Brain.infer_domain_core fuel l x d) inf
    else Brain.infer_domain_core fuel inf x dom

/-- `Brain.infer` (brain.py lines 259-267). -/
def Brain.infer (fuel : Nat) (inf0 : List Expr) (thm : Expr) :
    M (List Expr) :=
  match fuel with
  | 0 => M.spin
  | fuel + 1 =>
    let inf := addInf inf0 thm
    if thm.head = some Sym.Element then
      match thm.args with
      | some [x, dom] => do
          let inf ← Brain.infer_domain fuel inf x dom
          if dom.head = some Sym.SetMinus then
            match dom.args with
            | some [inset, outset] => do
                let inf ← Brain.infer_domain fuel inf x inset
                pure (Brain.infer_not_domain inf x outset)
            | _ => M.raise .valueError
          else pure inf
      | _ => M.raise .valueError
    else pure inf

/-- The assumption-processing loop of `Brain.__init__` (brain.py lines
292-302): the hypothesis conjunction is flattened and each conjunct is
fed to `infer`. -/
def Brain.mkInferences (fuel : Nat) (assumptions : Option Expr) :
    M (List Expr) :=
  match fuel with
  | 0 => M.spin
  | fuel + 1 =>
    match assumptions with
    | none => pure []
    | some a =>
        (a.head_args_flattened Sym.And).foldlM
          (fun inf asm => Brain.infer fuel inf asm) []

/-- The corpus loop of `FungrimBrain.__init__` (brain.py lines
3675-3708): variable-free `Equal` formulas are asserted as facts and
populate the ground-term table with their minimum-complexity side;
two-sided `Equal` formulas with variables are indexed by the head of
their left side. -/
def FungrimBrain.buildTables (fuel : Nat) (penalty : List (Expr × Int))
    (entries : List Expr) (inf0 : List Expr) :
    M (List Expr × List (Expr × Expr) × List (Option Expr × List String)) :=
  match fuel with
  | 0 => M.spin
  | fuel + 1 =>
    entries.foldlM (fun st entry => do
      match entry.get_arg_with_head Sym.Formula with
      | none => pure st
      | some formulaNode =>
        let vars := entry.get_arg_with_head Sym.Variables
        match formulaNode.args with
        | some (content :: _) =>
            match vars with
            | none => do
                let inf ← Brain.infer fuel st.1 content
                if content.head = some Sym.Equal then
                  match content.args with
                  | some [] => M.raise .indexError
                  | some (a0 :: restArgs) =>
                      let best := restArgs.foldl (fun (bc : Expr × Int) arg =>
                          let cost2 := Brain.complexity penalty arg
                          if cost2 < bc.2 then (arg, cost2) else bc)
                        (a0, Brain.complexity penalty a0)
                      let db := (a0 :: restArgs).foldl (fun db arg =>
                          if arg ≠ best.1 then assocSet db arg best.1 else db)
                        st.2.1
                      pure (inf, db, st.2.2)
                  | none => M.raise .indexError
                else pure (inf, st.2.1, st.2.2)
            | some _ =>
                if content.head = some Sym.Equal ∧
                    (content.args.getD []).length = 2 then
                  match entry.entry_id with
                  | none => M.raise .attributeError
                  | some eid =>
                      let lhs_head := ((content.args.getD []).headD content).head
                      pure (st.1, st.2.1, matchDbAdd st.2.2 lhs_head eid)
                else pure st
        | _ => M.raise .indexError) (inf0, ([], []))

end

/-- `Brain.__init__` (brain.py lines 269-302) packaged as the session
context: the flattened hypotheses populate the fact set; a plain `Brain`
has no knowledge-base tables. -/
def Brain.mkCtx (fuel : Nat) (assumptions : Option Expr)
    (penalty : List (Expr × Int)) : M Ctx := do
  let inf ← Brain.mkInferences encl renc evalAlg fsqrt fuel assumptions
  pure { inf := inf, penalty := penalty, exprDb := [], matchDb := [],
         entries := [], fb := false }

/-- `FungrimBrain.__init__` (brain.py lines 3666-3708) packaged as the
session context. -/
def FungrimBrain.mkCtx (fuel : Nat) (entries : List Expr)
    (assumptions : Option Expr) (penalty : List (Expr × Int)) : M Ctx := do
  let inf0 ← Brain.mkInferences encl renc evalAlg fsqrt fuel assumptions
  let t ← FungrimBrain.buildTables encl renc evalAlg fsqrt fuel penalty
    entries inf0
  pure { inf := t.1, penalty := penalty, exprDb := t.2.1, matchDb := t.2.2,
         entries := entries, fb := true }

end StatefulCluster

/-!
Concrete instantiations of the external collaborators, and runner
projections used by the theorems below.
-/

/-- Modelled from the spec: a Numeric Oracle instance for the traces
below.  Pygrim's `complex_enclosure` returns `None` whenever numerical
evaluation fails (brain.py lines 326-341); in every trace proved below
the oracle is consulted only on free symbols, for which `Expr.n` raises
and the real oracle returns `None` as well. -/
def enclNone : Expr → Option CB := fun _ => none

/-- Modelled from the spec: the real-enclosure oracle instance for the
traces below (`real_enclosure`, brain.py lines 312-324); no trace proved
below receives an enclosure. -/
def rencNone : Expr → Option RB := fun _ => none

/-- Modelled from the spec: an Algebraic Backend whose exact evaluator
signals the recoverable `NotImplementedError` on every shape
(`evaluate_alg` raises it on unsupported shapes, and no trace proved
below evaluates an algebraically supported shape). -/
def evalAlgNone : Int → Int → Expr → Res AlgV := fun _ _ _ =>
  Res.exn .notImplementedError

/-- The largest `k ≤ fuel` with `k * k ≤ n` (by downward search), so that
`isqrtAux n n` is the integer square root of `n`. -/
def isqrtAux : Nat → Nat → Nat
  | 0, _ => 0
  | fuel+1, n => if (fuel+1) * (fuel+1) ≤ n then fuel+1 else isqrtAux fuel n

/-- The float-based integer square root `int(round(v ** 0.5))` of
`simple_Sqrt`, instantiated for concrete traces as the integer square
root `⌊√n⌋`.  It agrees with the Python expression at every input at
which the traces below evaluate it (only small perfect squares such as
`v = 4`, where `int(round(4 ** 0.5)) = 2`); at other inputs
`simple_Sqrt` only compares `k * k` with `v` exactly, which fails for
both functions. -/
def fsqrtModel (n : Nat) : Nat := isqrtAux n n

/-- An initial state: empty memoization cache, arbitrary backend
budgets. -/
def st0 : St := { cache := [], degree_limit := 0, bits_limit := 0 }

/-- The free variable `x` of the sessions below (expr.py line 1237
injects the one-letter variable symbols). -/
def xSym : Expr := .Symbol "x"

/-- The value computed by `Brain.simple`, discarding the final cache
state (`none` when the trace raises or runs out of fuel). -/
def Brain.simpleValue (encl : Expr → Option CB) (renc : Expr → Option RB)
    (evalAlg : Int → Int → Expr → Res AlgV) (fsqrt : Nat → Nat)
    (fuel : Nat) (ctx : Ctx) (e : Expr) (st : St) : Option Expr :=
  match Brain.simple encl renc evalAlg fsqrt fuel ctx e st with
  | .ok v _ => some v
  | _ => none

/-- The value computed by `FungrimBrain.simple`, discarding the final
cache state. -/
def FungrimBrain.simpleValue (encl : Expr → Option CB)
    (renc : Expr → Option RB) (evalAlg : Int → Int → Expr → Res AlgV)
    (fsqrt : Nat → Nat) (fuel : Nat) (ctx : Ctx) (e : Expr) (st : St) :
    Option Expr :=
  match FungrimBrain.simple encl renc evalAlg fsqrt fuel ctx e st with
  | .ok v _ => some v
  | _ => none

/-- The session context built by `Brain.__init__` under the concrete
collaborators (`none` when construction raises or runs out of fuel). -/
def mkBrainCtx (fuel : Nat) (assumptions : Option Expr)
    (penalty : List (Expr × Int)) : Option Ctx :=
  match Brain.mkCtx enclNone rencNone evalAlgNone fsqrtModel fuel
      assumptions penalty st0 with
  | .ok c _ => some c
  | _ => none

/-- The session context built by `FungrimBrain.__init__` under the
concrete collaborators. -/
def mkFungrimCtx (fuel : Nat) (entries : List Expr)
    (assumptions : Option Expr) (penalty : List (Expr × Int)) :
    Option Ctx :=
  match FungrimBrain.mkCtx enclNone rencNone evalAlgNone fsqrtModel fuel
      entries assumptions penalty st0 with
  | .ok c _ => some c
  | _ => none

/-- Two consecutive `Brain.simple` calls in the same session: the result
of simplifying `t` and then the result of simplifying that result, with
the memoization cache threaded between the calls. -/
def Brain.simpleTwice (fuel : Nat) (ctx : Ctx) (t : Expr) :
    Option (Expr × Expr) :=
  match Brain.simple enclNone rencNone evalAlgNone fsqrtModel fuel ctx t
      st0 with
  | .ok r1 s1 =>
      match Brain.simple enclNone rencNone evalAlgNone fsqrtModel fuel ctx
          r1 s1 with
      | .ok r2 _ => some (r1, r2)
      | _ => none
  | _ => none

/-!
The formula corpus used to settle the rewriter claim.  Modelled from the
spec: the knowledge base is an external, immutable collection of formula
entries (`Entry(ID(...), Formula(Equal(lhs, rhs)), Variables(...))`)
supplied fully formed at rewriter construction.  `Foo` and `Bar` are
uninterpreted function symbols; the rule `Foo(n) = Bar(Sqrt(n))` is
sound by definition of `Foo`.
-/

/-- An uninterpreted function symbol (not a builtin, so it has no
operator handler and the default atom complexity 1000000). -/
def fooSym : Expr := .Symbol "Foo"

/-- A second uninterpreted function symbol. -/
def barSym : Expr := .Symbol "Bar"

/-- The rule variable of the corpus entry. -/
def nSym : Expr := .Symbol "n"

/-- A variable-free corpus entry `Exp(0) = 1`, populating the
ground-term table (the rule index is only consulted when the ground-term
table is nonempty, brain.py line 3748). -/
def entryConst : Expr :=
  .App Sym.Entry [Sym.ID.app1 (.Text "c1"),
    Sym.Formula.app1 (Sym.Equal.app2 (Sym.Exp.app1 (.Integer 0)) (.Integer 1))]

/-- The corpus rule `Foo(n) = Bar(Sqrt(n))` with bound variable `n`. -/
def entryRule : Expr :=
  .App Sym.Entry [Sym.ID.app1 (.Text "r1"),
    Sym.Formula.app1 (Sym.Equal.app2 (fooSym.app1 nSym)
      (barSym.app1 (Sym.Sqrt.app1 nSym))),
    Sym.Variables.app1 nSym]

/-- The penalty map of the rewriter session: the head symbol `Foo` is
penalized so that the rule fires on `Foo(-4)`. -/
def penaltyFoo : List (Expr × Int) := [(fooSym, 1000000000)]

/-- The rewriter session of the monotonicity claim. -/
def fungrimSession : Option Ctx :=
  mkFungrimCtx 100 [entryConst, entryRule] none penaltyFoo

/-- The candidate produced for `Foo(-4)` by the corpus rule, as
`rewrite_fungrim` computes it (brain.py line 3740), evaluated from a
fresh state. -/
def fungrimCandidate : Option Expr :=
  match fungrimSession with
  | some c =>
      match Brain.rewrite_fungrim enclNone rencNone evalAlgNone fsqrtModel
          100 c (fooSym.app1 (.Integer (-4))) "r1" false st0 with
      | .ok v _ => some v
      | _ => none
  | none => none

/-- The session whose only hypothesis is `x ∈ ℤ`. -/
def sessionZZ : Option Ctx :=
  mkBrainCtx 100 (some (Sym.Element.app2 xSym Sym.ZZ)) []

/-- The session whose only hypothesis is `x > 0`. -/
def sessionGpos : Option Ctx :=
  mkBrainCtx 100 (some (Sym.Greater.app2 xSym (.Integer 0))) []

/-- `Brain.simple` in an optional session, from a fresh cache. -/
def simpleValueIn (oc : Option Ctx) (fuel : Nat) (e : Expr) : Option Expr :=
  oc.bind (fun c =>
    Brain.simpleValue enclNone rencNone evalAlgNone fsqrtModel fuel c e st0)

/-- `Brain.simpleTwice` in an optional session. -/
def simpleTwiceIn (oc : Option Ctx) (fuel : Nat) (t : Expr) :
    Option (Expr × Expr) :=
  oc.bind (fun c => Brain.simpleTwice fuel c t)

/-!
Theorems settling the claims, preceded by general lemmas about the state
monad and the complexity metric shared by their proofs.
-/

/-- Unfolding lemma: running a bound computation runs the first part and
feeds its value and state to the continuation. -/
theorem M_bind_apply {α β : Type} (x : M α) (f : α → M β) (s : St) :
    (x >>= f) s = match x s with
      | .ok a s' => f a s'
      | .exn e s' => SRes.exn e s'
      | .spin => .spin := rfl

/-- Unfolding lemma: `pure` returns its value at the unchanged state. -/
theorem M_pure_apply {α : Type} (a : α) (s : St) :
    (pure a : M α) s = .ok a s := rfl

/-- A lifted stateless computation never moves the state. -/
theorem M_lift_apply {α : Type} (r : Res α) (s : St) :
    M.lift r s = match r with
      | .ok a => SRes.ok a s
      | .exn e => SRes.exn e s
      | .spin => SRes.spin := by
  cases r <;> rfl

/-- Looking up the key just written at the front of the cache returns the
written value. -/
theorem lookup_cons_self (e : Expr) (v : Option Expr)
    (l : List (Expr × Option Expr)) :
    ((e, v) :: l).lookup e = some v := by
  simp [List.lookup]

/-- Every term has complexity at least 1 under the empty penalty map, and
every argument list has nonnegative total complexity. -/
theorem complexity_ge_one (e : Expr) : 1 ≤ Brain.complexity [] e := by
  refine @Expr.rec (fun e => 1 ≤ Brain.complexity [] e)
    (fun l => 0 ≤ Brain.complexityList [] l) ?_ ?_ ?_ ?_ ?_ ?_ e
  · intro s
    simp only [Brain.complexity, List.lookup_nil, Brain.complexity_atom,
      Expr.toInt]
    split_ifs <;> norm_num
  · intro n
    have hb : (0 : Int) ≤ pyBitLength n := Int.natCast_nonneg _
    simp only [Brain.complexity, List.lookup_nil, Brain.complexity_atom,
      Expr.toInt]
    split_ifs <;> omega
  · intro s
    simp only [Brain.complexity, List.lookup_nil, Brain.complexity_atom,
      Expr.toInt]
    split_ifs <;> norm_num
  · intro h args ih1 ih2
    simp only [Brain.complexity, List.lookup_nil]
    omega
  · simp only [Brain.complexityList]
    omega
  · intro x xs ih1 ih2
    simp only [Brain.complexityList]
    omega

/-- C1 (counterexample): simplifying twice is not simplifying once.  In
the session whose only hypothesis is `x > 0`, the term
`t = Greater(x, Pos(0))` simplifies to `Greater(x, 0)` (the handler
rebuilds the relation from simplified operands and no predicate decides
it), but simplifying that result again hits the fact-set membership
short-circuit of `Brain.simple` and returns literal `True_`, so
`simple(simple(t)) ≠ simple(t)`. -/
theorem C1_counterexample :
    simpleTwiceIn sessionGpos 100
        (Sym.Greater.app2 xSym (Sym.Pos.app1 (.Integer 0)))
      = some (Sym.Greater.app2 xSym (.Integer 0), Sym.True_) ∧
    Sym.True_ ≠ Sym.Greater.app2 xSym (.Integer 0) := by
  constructor
  · decide
  · decide

/-- C2 (counterexample): the predicate layer can raise.  `Brain.element`
applied to an `Intersection` with no member sets hits
`assert len(S.args()) >= 1` (brain.py line 1002) and raises
`AssertionError` instead of returning true/false/unknown. -/
theorem C2_counterexample :
    Brain.element enclNone rencNone evalAlgNone fsqrtModel 100 emptyCtx
        xSym (.App Sym.Intersection []) st0
      = .exn .assertionError st0 := by decide

/-- C4: domain lattice closure.  In the session whose only hypothesis is
`x ∈ ℤ`, simplifying `Element(x, S)` yields literal `True_` for `S` each
of `ZZ`, `QQ`, `RR`, `CC` and `AlgebraicNumbers` (the hypothesis
expansion of `infer_domain` placed all five facts in the fact set), while
`Element(x, PP)` returns unchanged, which is neither literal `True_` nor
literal `False_`. -/
theorem C4_domain_lattice :
    simpleValueIn sessionZZ 100 (Sym.Element.app2 xSym Sym.ZZ)
        = some Sym.True_ ∧
    simpleValueIn sessionZZ 100 (Sym.Element.app2 xSym Sym.QQ)
        = some Sym.True_ ∧
    simpleValueIn sessionZZ 100 (Sym.Element.app2 xSym Sym.RR)
        = some Sym.True_ ∧
    simpleValueIn sessionZZ 100 (Sym.Element.app2 xSym Sym.CC)
        = some Sym.True_ ∧
    simpleValueIn sessionZZ 100 (Sym.Element.app2 xSym Sym.AlgebraicNumbers)
        = some Sym.True_ ∧
    simpleValueIn sessionZZ 100 (Sym.Element.app2 xSym Sym.PP)
        = some (Sym.Element.app2 xSym Sym.PP) ∧
    Sym.Element.app2 xSym Sym.PP ≠ Sym.True_ ∧
    Sym.Element.app2 xSym Sym.PP ≠ Sym.False_ := by
  refine ⟨?_, ?_, ?_, ?_, ?_, ?_, ?_, ?_⟩ <;> decide

/-- C5 (counterexample): the knowledge-base rewriter is not
complexity-monotone against the candidates it considers.  With the
corpus rule `Foo(n) = Bar(Sqrt(n))`, rewriting `Foo(-4)` selects the
successful candidate `Bar(Sqrt(-4))` (complexity 1000063) and
re-simplifies it; `simple_Sqrt` turns `Sqrt(-4)` into `Mul(2, ConstI)`
and the final result `Bar(Mul(2, ConstI))` has complexity 1000115,
strictly higher than the candidate considered. -/
theorem C5_counterexample :
    (fungrimSession.bind (fun c =>
        FungrimBrain.simpleValue enclNone rencNone evalAlgNone fsqrtModel
          200 c (fooSym.app1 (.Integer (-4))) st0))
      = some (barSym.app1 (Sym.Mul.app2 (.Integer 2) Sym.ConstI)) ∧
    fungrimCandidate = some (barSym.app1 (Sym.Sqrt.app1 (.Integer (-4)))) ∧
    Brain.complexity penaltyFoo (barSym.app1 (Sym.Sqrt.app1 (.Integer (-4))))
      < Brain.complexity penaltyFoo
          (barSym.app1 (Sym.Mul.app2 (.Integer 2) Sym.ConstI)) := by
  refine ⟨?_, ?_, ?_⟩ <;> decide

/-- C6 (counterexample): `simple_Sqrt` is not exact for unbounded
integers.  `n = 10^120 = (10^60)^2` is a perfect square, but the
detection is guarded by `v < 1e100` (brain.py line 2163), so
`simplify(Sqrt(10^120))` returns the unevaluated `Sqrt(10^120)` rather
than the integer `10^60`. -/
theorem C6_counterexample :
    Brain.simpleValue enclNone rencNone evalAlgNone fsqrtModel 100 emptyCtx
        (Sym.Sqrt.app1 (.Integer (10 ^ 120))) st0
      = some (Sym.Sqrt.app1 (.Integer (10 ^ 120))) ∧
    Sym.Sqrt.app1 (.Integer (10 ^ 120)) ≠ Expr.Integer (10 ^ 60) := by
  constructor
  · decide
  · decide

/-- C7 (counterexample): the unroll threshold is `b - a < 100`, which
admits sums of exactly 100 terms.  `Sum(x, For(x, 1, 100))` has 100
terms, yet it unrolls and evaluates to the integer `5050` instead of
being returned unevaluated. -/
theorem C7_counterexample :
    Brain.simpleValue enclNone rencNone evalAlgNone fsqrtModel 600 emptyCtx
        (.App Sym.Sum [xSym, .App Sym.For [xSym, .Integer 1, .Integer 100]])
        st0
      = some (.Integer 5050) ∧
    (Expr.Integer 5050) ≠
      .App Sym.Sum [xSym, .App Sym.For [xSym, .Integer 1, .Integer 100]] := by
  constructor
  · decide
  · decide

/-- C8 (counterexample): a negative integer atom costs
`1 + bitlength + 1`, not `1 + bitlength`: the source adds `(v < 0)`
(brain.py line 1301).  With the empty penalty map, `complexity(-1) = 3`
while `1 + bitlength(-1) = 2`. -/
theorem C8_counterexample :
    Brain.complexity [] (.Integer (-1)) = 3 ∧
    Brain.complexity [] (.Integer (-1)) ≠ 1 + pyBitLength (-1) := by
  constructor
  · decide
  · decide

/-- C9 (counterexample): constructing a zero-arity application does not
fault.  The constructor stores the whole call tuple, so
`Expr(call=(f,))` has `len(self._args) == 1` and passes
`assert len(self._args) >= 1`, producing a non-atomic term. -/
theorem C9_counterexample :
    Expr.newCall [.Symbol "f"] = some (.App (.Symbol "f") []) := by decide

/-- C9 (amended): only an empty call tuple (an application with no head
at all) faults; a zero-arity application `f()` is constructed
successfully as a non-atomic term with head `f` and an empty argument
tuple. -/
theorem C9_amended :
    Expr.newCall [] = none ∧
    (∀ (h : Expr) (t : List Expr), Expr.newCall (h :: t) = some (.App h t)) ∧
    (Expr.App (.Symbol "f") []).is_atom = false ∧
    (Expr.App (.Symbol "f") []).head = some (.Symbol "f") ∧
    (Expr.App (.Symbol "f") []).args = some [] :=
  ⟨rfl, fun _ _ => rfl, rfl, rfl, rfl⟩

/-- C10: `head()` and `args()` are safe on atoms.  For every atom
(symbol, integer or text), both return `None` rather than raising. -/
theorem C10_atom_head_args (a : Expr) (h : a.is_atom = true) :
    a.head = none ∧ a.args = none := by
  cases a <;> simp_all [Expr.is_atom, Expr.head, Expr.args]

/-- C10 (witness): the integer atom `5`. -/
theorem C10_atom_head_args_witness :
    (Expr.Integer 5).is_atom = true ∧
    (Expr.Integer 5).head = none ∧ (Expr.Integer 5).args = none :=
  ⟨by decide, C10_atom_head_args (Expr.Integer 5) (by decide)⟩

/-- C2 (amended): the ternary predicates return yes/no/unknown on
well-formed inputs, but `Brain.element` raises `AssertionError` on the
malformed set expressions singled out by its `assert` statements: an
`Intersection` with no member sets and a `SetMinus` whose argument count
is not two — for every session fact set given by the fresh session, every
fuel, every element `x` and every set argument `T`; on the well-formed
one-set `Intersection(ZZ)` it returns `unknown` normally. -/
theorem C2_amended (encl : Expr → Option CB) (renc : Expr → Option RB)
    (evalAlg : Int → Int → Expr → Res AlgV) (fsqrt : Nat → Nat)
    (fuel : Nat) (x T : Expr) (st : St) :
    (Brain.element encl renc evalAlg fsqrt (fuel + 1) emptyCtx x
        (.App Sym.Intersection []) st = .exn .assertionError st) ∧
    (Brain.element encl renc evalAlg fsqrt (fuel + 1) emptyCtx x
        (.App Sym.SetMinus [T]) st = .exn .assertionError st) ∧
    (Brain.element enclNone rencNone evalAlgNone fsqrtModel 100 emptyCtx
        xSym (.App Sym.Intersection [Sym.ZZ]) st0 = .ok .unknown st0) :=
  ⟨rfl, rfl, by decide⟩

/-- The folded minimum never exceeds the complexity of its seed. -/
theorem fungrimMin_le_seed (penalty : List (Expr × Int))
    (crest : List (Expr × String)) (c0 : Expr × String) :
    Brain.complexity penalty (fungrimMin penalty c0 crest).1
      ≤ Brain.complexity penalty c0.1 := by
  induction crest generalizing c0 with
  | nil => exact le_refl _
  | cons y ys ih =>
      have hstep : fungrimMin penalty c0 (y :: ys)
          = fungrimMin penalty
              (if Brain.complexity penalty y.1 < Brain.complexity penalty c0.1
                then y else c0) ys := rfl
      rw [hstep]
      refine le_trans (ih _) ?_
      split_ifs with hlt
      · exact le_of_lt hlt
      · exact le_refl _

/-- C5 (amended): the candidate selection itself is minimal — the
`min(...)` over the successful rule-match candidates picks a candidate
whose complexity does not exceed that of any candidate in the list
(non-monotonicity enters only through the re-simplification of the
selected candidate). -/
theorem C5_amended (penalty : List (Expr × Int)) (c0 : Expr × String)
    (crest : List (Expr × String)) (c : Expr × String)
    (hc : c ∈ c0 :: crest) :
    Brain.complexity penalty (fungrimMin penalty c0 crest).1
      ≤ Brain.complexity penalty c.1 := by
  induction crest generalizing c0 with
  | nil =>
      rcases List.mem_cons.mp hc with h | h
      · subst h
        simp [fungrimMin]
      · cases h
  | cons y ys ih =>
      have hstep : fungrimMin penalty c0 (y :: ys)
          = fungrimMin penalty
              (if Brain.complexity penalty y.1 < Brain.complexity penalty c0.1
                then y else c0) ys := rfl
      have hfy1 : Brain.complexity penalty
            ((if Brain.complexity penalty y.1 < Brain.complexity penalty c0.1
              then y else c0) : Expr × String).1
          ≤ Brain.complexity penalty c0.1 := by
        split_ifs with hlt
        · exact le_of_lt hlt
        · exact le_refl _
      have hfy2 : Brain.complexity penalty
            ((if Brain.complexity penalty y.1 < Brain.complexity penalty c0.1
              then y else c0) : Expr × String).1
          ≤ Brain.complexity penalty y.1 := by
        split_ifs with hlt
        · exact le_refl _
        · exact le_of_not_lt hlt
      have hseed := fungrimMin_le_seed penalty ys
        (if Brain.complexity penalty y.1 < Brain.complexity penalty c0.1
          then y else c0)
      rcases List.mem_cons.mp hc with h | h
      · subst h
        rw [hstep]
        exact le_trans hseed hfy1
      · rcases List.mem_cons.mp h with h2 | h2
        · subst h2
          rw [hstep]
          exact le_trans hseed hfy2
        · rw [hstep]
          exact ih _ (List.mem_cons.mpr (Or.inr h2))

/-- C5 (amended, witness): with the session penalty map, the minimum over
the two candidates `Bar(Sqrt(-4))` and `Foo(-4)` is no costlier than
either. -/
theorem C5_amended_witness :
    ((barSym.app1 (Sym.Sqrt.app1 (.Integer (-4))), "r1")
        ∈ [(barSym.app1 (Sym.Sqrt.app1 (.Integer (-4))), "r1"),
           (fooSym.app1 (.Integer (-4)), "r0")]) ∧
    Brain.complexity penaltyFoo
        (fungrimMin penaltyFoo
          (barSym.app1 (Sym.Sqrt.app1 (.Integer (-4))), "r1")
          [(fooSym.app1 (.Integer (-4)), "r0")]).1
      ≤ Brain.complexity penaltyFoo (fooSym.app1 (.Integer (-4))) := by
  constructor
  · decide
  · exact C5_amended penaltyFoo
      (barSym.app1 (Sym.Sqrt.app1 (.Integer (-4))), "r1")
      [(fooSym.app1 (.Integer (-4)), "r0")]
      (fooSym.app1 (.Integer (-4)), "r0") (by decide)

/-- C8 (amended): with the empty penalty override map, the complexity
metric is a total function computing at least 1 on every term; an
integer atom `n` costs `1 + bitlength(n) + (1 if n < 0 else 0)` — the
spec omits the negative-sign term — and a non-atomic term costs
`complexity(head) + 2 * (sum of complexity over the arguments) + 1`. -/
theorem C8_amended :
    (∀ e : Expr, 1 ≤ Brain.complexity [] e) ∧
    (∀ n : Int, Brain.complexity [] (.Integer n)
        = 1 + pyBitLength n + (if n < 0 then 1 else 0)) ∧
    (∀ (h : Expr) (args : List Expr), Brain.complexity [] (.App h args)
        = Brain.complexity [] h + 2 * Brain.complexityList [] args + 1) :=
  ⟨complexity_ge_one, fun _ => rfl, fun _ _ => rfl⟩

/-- C7 (amended): the unroll threshold of `simple_Sum` is the Python
condition `b - a < 100` on the literal bounds, which counts the terms of
`Sum(e, For(v, a, b))` as `b - a + 1` — so sums with up to and including
exactly 100 terms unroll to the simplified `Add` of the substituted
instances, and only sums with 101 or more terms are returned
unevaluated.  This holds in a fresh session for every fuel, state,
summand, loop variable and pair of integer bounds. -/
theorem C7_amended (encl : Expr → Option CB) (renc : Expr → Option RB)
    (evalAlg : Int → Int → Expr → Res AlgV) (fsqrt : Nat → Nat)
    (m : Nat) (st : St) (e v : Expr) (ia ib : Int) :
    (ib - ia < 100 →
      Brain.simple_Sum encl renc evalAlg fsqrt (m + 3) emptyCtx
          [e, .App Sym.For [v, .Integer ia, .Integer ib]] st
        = Brain.sSimple encl renc evalAlg fsqrt (m + 2) emptyCtx
            (.App Sym.Add ((intRange ia ib).map
              (fun i => e.replace [(v, .Integer i)]))) st) ∧
    (100 ≤ ib - ia →
      Brain.simple_Sum encl renc evalAlg fsqrt (m + 3) emptyCtx
          [e, .App Sym.For [v, .Integer ia, .Integer ib]] st
        = .ok (.App Sym.Sum [e, .App Sym.For [v, .Integer ia, .Integer ib]])
            st) := by
  have hred : Brain.simple_Sum encl renc evalAlg fsqrt (m + 3) emptyCtx
      [e, .App Sym.For [v, .Integer ia, .Integer ib]] st
    = (if ib - ia < 100 then
        Brain.sSimple encl renc evalAlg fsqrt (m + 2) emptyCtx
          (.App Sym.Add ((intRange ia ib).map
            (fun i => e.replace [(v, .Integer i)])))
      else
        (pure (.App Sym.Sum [e, .App Sym.For [v, .Integer ia, .Integer ib]])
          : M Expr)) st := rfl
  constructor
  · intro h
    rw [hred, if_pos h]
  · intro h
    rw [hred, if_neg (by omega : ¬ ib - ia < 100)]
    rfl

/-- C7 (amended, witness): the three-term sum `Sum(x, For(x, 1, 3))`
unrolls to the simplified `Add` of the substituted instances, and the
201-term sum `Sum(x, For(x, 1, 201))` is returned unevaluated. -/
theorem C7_amended_witness :
    ((3 : Int) - 1 < 100 ∧
      Brain.simple_Sum enclNone rencNone evalAlgNone fsqrtModel 3 emptyCtx
          [xSym, .App Sym.For [xSym, .Integer 1, .Integer 3]] st0
        = Brain.sSimple enclNone rencNone evalAlgNone fsqrtModel 2 emptyCtx
            (.App Sym.Add ((intRange 1 3).map
              (fun i => xSym.replace [(xSym, .Integer i)]))) st0) ∧
    ((100 : Int) ≤ 201 - 1 ∧
      Brain.simple_Sum enclNone rencNone evalAlgNone fsqrtModel 3 emptyCtx
          [xSym, .App Sym.For [xSym, .Integer 1, .Integer 201]] st0
        = .ok (.App Sym.Sum [xSym, .App Sym.For [xSym, .Integer 1,
            .Integer 201]]) st0) :=
  ⟨⟨by decide,
    (C7_amended enclNone rencNone evalAlgNone fsqrtModel 0 st0 xSym xSym
      1 3).1 (by decide)⟩,
   ⟨by decide,
    (C7_amended enclNone rencNone evalAlgNone fsqrtModel 0 st0 xSym xSym
      1 201).2 (by decide)⟩⟩

/-- C6 (amended): `simple_Sqrt` is exact only below the float threshold.
For every integer `n` with `2 ≤ n < 1e100` whose square-root probe
returns `k` with `k² = n`, `simplify(Sqrt(n))` returns the integer atom
`k` and `simplify(Sqrt(-n))` returns `Mul(k, ConstI)`; the special small
cases `0`, `1` and `-1` return `0`, `1` and `ConstI`.  (Above the
threshold the detection is skipped: `C6_counterexample`.) -/
theorem C6_amended (encl : Expr → Option CB) (renc : Expr → Option RB)
    (evalAlg : Int → Int → Expr → Res AlgV) (fsqrt : Nat → Nat)
    (m : Nat) (st : St) (n k : Nat) :
    (2 ≤ n → n < float1e100 → fsqrt n = k → k * k = n →
      Brain.simple_Sqrt encl renc evalAlg fsqrt (m + 3) emptyCtx
          (.Integer (n : Int)) st = .ok (.Integer (k : Int)) st) ∧
    (2 ≤ n → n < float1e100 → fsqrt n = k → k * k = n →
      Brain.simple_Sqrt encl renc evalAlg fsqrt (m + 3) emptyCtx
          (.Integer (-(n : Int))) st
        = .ok (Sym.Mul.app2 (.Integer (k : Int)) Sym.ConstI) st) ∧
    (Brain.simple_Sqrt encl renc evalAlg fsqrt (m + 3) emptyCtx
        (.Integer 0) st = .ok (.Integer 0) st) ∧
    (Brain.simple_Sqrt encl renc evalAlg fsqrt (m + 3) emptyCtx
        (.Integer 1) st = .ok (.Integer 1) st) ∧
    (Brain.simple_Sqrt encl renc evalAlg fsqrt (m + 3) emptyCtx
        (.Integer (-1)) st = .ok Sym.ConstI st) := by
  refine ⟨?_, ?_, rfl, rfl, rfl⟩
  · intro h2 hlt hk hkk
    have hs : Brain.sSimple encl renc evalAlg fsqrt (m + 2) emptyCtx
        (.Integer (n : Int)) st = .ok (.Integer (n : Int)) st := rfl
    have hc1 : ¬(Expr.Integer (n : Int) = Expr.Integer 0 ∨
        Expr.Integer (n : Int) = Expr.Integer 1 ∨
        Expr.Integer (n : Int) = Sym.Infinity ∨
        Expr.Integer (n : Int) = Sym.UnsignedInfinity ∨
        Expr.Integer (n : Int) = Sym.Undefined) := by
      simp only [Expr.Integer.injEq, Sym.Infinity, Sym.UnsignedInfinity,
        Sym.Undefined, not_or]
      refine ⟨by omega, by omega, by simp, by simp, by simp⟩
    have hc2 : ¬(Expr.Integer (n : Int) = Expr.Integer (-1)) := by
      simp only [Expr.Integer.injEq]
      omega
    have hc3 : ¬(Expr.Integer (n : Int) = Sym.Neg.app1 Sym.Infinity) := by
      simp [Sym.Neg, Sym.Infinity, Expr.app1]
    simp only [Brain.simple_Sqrt, M_bind_apply, hs]
    rw [if_neg hc1, if_neg hc2, if_neg hc3]
    simp only [Expr.toInt, Int.natAbs_ofNat]
    rw [if_pos hlt, hk, if_pos hkk, if_pos (by omega : (n : Int) ≥ 0)]
    rfl
  · intro h2 hlt hk hkk
    have hs : Brain.sSimple encl renc evalAlg fsqrt (m + 2) emptyCtx
        (.Integer (-(n : Int))) st = .ok (.Integer (-(n : Int))) st := rfl
    have hc1 : ¬(Expr.Integer (-(n : Int)) = Expr.Integer 0 ∨
        Expr.Integer (-(n : Int)) = Expr.Integer 1 ∨
        Expr.Integer (-(n : Int)) = Sym.Infinity ∨
        Expr.Integer (-(n : Int)) = Sym.UnsignedInfinity ∨
        Expr.Integer (-(n : Int)) = Sym.Undefined) := by
      simp only [Expr.Integer.injEq, Sym.Infinity, Sym.UnsignedInfinity,
        Sym.Undefined, not_or]
      refine ⟨by omega, by omega, by simp, by simp, by simp⟩
    have hc2 : ¬(Expr.Integer (-(n : Int)) = Expr.Integer (-1)) := by
      simp only [Expr.Integer.injEq]
      omega
    have hc3 : ¬(Expr.Integer (-(n : Int)) = Sym.Neg.app1 Sym.Infinity) := by
      simp [Sym.Neg, Sym.Infinity, Expr.app1]
    simp only [Brain.simple_Sqrt, M_bind_apply, hs]
    rw [if_neg hc1, if_neg hc2, if_neg hc3]
    simp only [Expr.toInt, Int.natAbs_neg, Int.natAbs_ofNat]
    rw [if_pos hlt, hk, if_pos hkk, if_neg (by omega : ¬ -(n : Int) ≥ 0)]
    rfl

/-- C6 (amended, witness): `Sqrt(144)` evaluates to `12` and
`Sqrt(-144)` to `Mul(12, ConstI)` under the concrete collaborators. -/
theorem C6_amended_witness :
    (2 ≤ 144 ∧ 144 < float1e100 ∧ fsqrtModel 144 = 12 ∧ 12 * 12 = 144) ∧
    Brain.simple_Sqrt enclNone rencNone evalAlgNone fsqrtModel 3 emptyCtx
        (.Integer ((144 : Nat) : Int)) st0
      = .ok (.Integer ((12 : Nat) : Int)) st0 ∧
    Brain.simple_Sqrt enclNone rencNone evalAlgNone fsqrtModel 3 emptyCtx
        (.Integer (-((144 : Nat) : Int))) st0
      = .ok (Sym.Mul.app2 (.Integer ((12 : Nat) : Int)) Sym.ConstI) st0 :=
  ⟨⟨by decide, by decide, by decide, by decide⟩,
   (C6_amended enclNone rencNone evalAlgNone fsqrtModel 0 st0 144 12).1
     (by decide) (by decide) (by decide) (by decide),
   (C6_amended enclNone rencNone evalAlgNone fsqrtModel 0 st0 144 12).2.1
     (by decide) (by decide) (by decide) (by decide)⟩

/-- The `try/finally` tail of `Brain.equal` preserves the budgets on
every non-diverging exit. -/
theorem equal_try_budgets (encl : Expr → Option CB)
    (evalAlg : Int → Int → Expr → Res AlgV) (fuel : Nat) (inf : List Expr)
    (a b : Expr) (st : St) :
    match Brain.equal_try encl evalAlg fuel inf a b st with
    | .ok _ s' => s'.degree_limit = st.degree_limit ∧
        s'.bits_limit = st.bits_limit
    | .exn _ s' => s'.degree_limit = st.degree_limit ∧
        s'.bits_limit = st.bits_limit
    | .spin => True := by
  unfold Brain.equal_try
  rcases hab : Brain.equal_exact evalAlg a b st with ⟨r2, s2⟩ | ⟨e2, s2⟩ | _
  · rcases r2 with _ | t
    · rcases hd : Brain.equal_domains encl fuel inf a b with t | e | _
      · exact ⟨rfl, rfl⟩
      · exact ⟨rfl, rfl⟩
      · trivial
    · exact ⟨rfl, rfl⟩
  · exact ⟨rfl, rfl⟩
  · trivial

/-- C3: `Brain.equal` restores the Algebraic Backend's global degree and
bit-size budgets on every exit, normal or exceptional — the temporary
widening to `200`/`100000` for the exact-equality test happens inside a
`try/finally` whose `finally` reinstates the originals (out-of-fuel is
divergence, on which the claim is silent).  This holds for every
enclosure oracle, every exact evaluator, every fuel, fact set, argument
pair and starting state. -/
theorem C3_budget_restored (encl : Expr → Option CB)
    (evalAlg : Int → Int → Expr → Res AlgV) (fuel : Nat) (inf : List Expr)
    (a b : Expr) (st : St) :
    match Brain.equal encl evalAlg fuel inf a b st with
    | .ok _ s' => s'.degree_limit = st.degree_limit ∧
        s'.bits_limit = st.bits_limit
    | .exn _ s' => s'.degree_limit = st.degree_limit ∧
        s'.bits_limit = st.bits_limit
    | .spin => True := by
  unfold Brain.equal
  split_ifs <;> try exact ⟨rfl, rfl⟩
  rcases hex : Brain.equal_excl encl a b with _ | r
  · exact equal_try_budgets encl evalAlg fuel inf a b st
  · rcases r with t | e | _
    · exact ⟨rfl, rfl⟩
    · exact ⟨rfl, rfl⟩
    · trivial

/-- C1 (amended): `Brain.simple` is stable on the *same input* in the
same session — if simplifying `t` returns `r`, simplifying `t` again
from the resulting cache state returns the same `r` (by memoization, for
any positive fuel on the second call; `simple(simple(t))` on the other
hand can differ: `C1_counterexample`). -/
theorem C1_amended (encl : Expr → Option CB) (renc : Expr → Option RB)
    (evalAlg : Int → Int → Expr → Res AlgV) (fsqrt : Nat → Nat)
    (fuel m : Nat) (ctx : Ctx) (t r : Expr) (st s' : St)
    (h : Brain.simple encl renc evalAlg fsqrt (fuel + 1) ctx t st
      = .ok r s') :
    ∃ s'', Brain.simple encl renc evalAlg fsqrt (m + 1) ctx t s'
      = .ok r s'' := by
  simp only [Brain.simple] at h ⊢
  split_ifs at h ⊢ with h1 h2
  · rw [M_pure_apply] at h
    injection h with hv hs
    subst hv
    subst hs
    exact ⟨st, rfl⟩
  · rw [M_pure_apply] at h
    injection h with hv hs
    subst hv
    subst hs
    exact ⟨st, rfl⟩
  · rw [M_bind_apply] at h
    simp only [M.cacheGet] at h
    rcases hc : st.cache.lookup t with _ | ov
    · rw [hc] at h
      simp only [M_bind_apply, M.cacheSet, M_pure_apply] at h
      split at h
      · injection h with hv hs
        subst hv
        subst hs
        rw [M_bind_apply]
        simp only [M.cacheGet, lookup_cons_self]
        exact ⟨_, rfl⟩
      · simp at h
      · simp at h
    · rw [hc] at h
      rcases ov with _ | v
      · have h' : SRes.ok t st = SRes.ok r s' := h
        injection h' with hv hs
        subst hv
        subst hs
        rw [M_bind_apply]
        simp only [M.cacheGet, hc]
        exact ⟨st, rfl⟩
      · have h' : SRes.ok v st = SRes.ok r s' := h
        injection h' with hv hs
        subst hv
        subst hs
        rw [M_bind_apply]
        simp only [M.cacheGet, hc]
        exact ⟨st, rfl⟩

/-- C1 (amended, witness): simplifying `Sqrt(144)` caches the result
`12`, and a second run on the same input from the cached state returns
`12` again. -/
theorem C1_amended_witness :
    Brain.simple enclNone rencNone evalAlgNone fsqrtModel 100 emptyCtx
        (Sym.Sqrt.app1 (.Integer 144)) st0
      = .ok (.Integer 12)
          { cache := [(Sym.Sqrt.app1 (.Integer 144), some (.Integer 12))],
            degree_limit := 0, bits_limit := 0 } ∧
    ∃ s'', Brain.simple enclNone rencNone evalAlgNone fsqrtModel 100
        emptyCtx (Sym.Sqrt.app1 (.Integer 144))
        { cache := [(Sym.Sqrt.app1 (.Integer 144), some (.Integer 12))],
          degree_limit := 0, bits_limit := 0 }
      = .ok (.Integer 12) s'' :=
  ⟨by decide,
   C1_amended enclNone rencNone evalAlgNone fsqrtModel 99 99 emptyCtx
     (Sym.Sqrt.app1 (.Integer 144)) (.Integer 12) st0
     { cache := [(Sym.Sqrt.app1 (.Integer 144), some (.Integer 12))],
       degree_limit := 0, bits_limit := 0 } (by decide)⟩

end Pygrim
